import Mathlib

/-!
# httpstat: trace recorder, response aggregator and error normalizer

A shallow embedding of `httpstat.go`, `request.go` and `errors.go`.

Conventions used throughout:

* a Go value that may panic at run time (index out of range, nil pointer
  dereference, method call on a nil interface) is an `Option`, with `none`
  standing for the panic;
* Go `int` and `time.Duration` values are integers; where the range of the
  machine type matters (the result of `Time.Sub`, the sum of two durations,
  the byte counter of `sizeWriter`, an `int` of 32 or 64 bits) the clamping
  or wrapping is explicit;
* values of the Go standard library that the package only reads (`time.Time`,
  the error types of `net`, `net/url`, `os`, `syscall`, `crypto/tls`,
  `crypto/x509`) are modelled by the fields and methods the package uses.
-/

set_option linter.dupNamespace false

namespace Httpstat

/-! ## `time.Time` and `time.Duration` -/

/-! A Go `time.Duration` is a signed 64-bit count of nanoseconds; it is
carried as an `Int` that lies between `minDuration` and `maxDuration`. -/

/-- Smallest `time.Duration`, `-1 << 63`. -/
def minDuration : Int := -(2 ^ 63)

/-- Largest `time.Duration`, `1<<63 - 1`. -/
def maxDuration : Int := 2 ^ 63 - 1

/-- A value is representable as a `time.Duration`. -/
def Duration.inRange (d : Int) : Prop := minDuration ≤ d ∧ d ≤ maxDuration

instance (d : Int) : Decidable (Duration.inRange d) := by
  unfold Duration.inRange; exact inferInstance

/-- Two's-complement wrap of an integer into the signed 64-bit range. -/
def wrap64 (x : Int) : Int := (x + 2 ^ 63) % 2 ^ 64 - 2 ^ 63

/-- Go `a + b` on two `time.Duration` values (wraps on overflow). -/
def Duration.add (a b : Int) : Int := wrap64 (a + b)

/-- Go `time.Time`, taken as an instant on one time line: the number of
nanoseconds elapsed since the zero time (January 1, year 1, 00:00:00 UTC).
The zero value `time.Time{}` is the instant `0`. Wall-clock and monotonic
readings of an instant are not told apart. -/
structure Time where
  ns : Int
  deriving DecidableEq, Repr

/-- The zero value `time.Time{}`. -/
def Time.zero : Time := ⟨0⟩

/-- Go `t.IsZero()`. -/
def Time.IsZero (t : Time) : Bool := t.ns == 0

/-- Go `t.Sub(u)`: the duration `t - u`; when the difference does not fit a
`time.Duration` the minimum or maximum duration is returned. -/
def Time.Sub (t u : Time) : Int :=
  let d := t.ns - u.ns
  if d < minDuration then minDuration
  else if maxDuration < d then maxDuration
  else d

/-! ## `httpstat.go`: the trace record and its derived durations -/

/-- The `trace` struct. -/
structure trace where
  addr : String
  tls : Bool
  start : Time
  dnsStart : Time
  dnsEnd : Time
  tcpStart : Time
  tcpEnd : Time
  tlsStart : Time
  tlsEnd : Time
  waitStart : Time
  waitEnd : Time
  deriving DecidableEq, Repr

/-- The composite literal `trace{}`: every field at its zero value. -/
def trace.empty : trace :=
  { addr := "", tls := false, start := Time.zero,
    dnsStart := Time.zero, dnsEnd := Time.zero,
    tcpStart := Time.zero, tcpEnd := Time.zero,
    tlsStart := Time.zero, tlsEnd := Time.zero,
    waitStart := Time.zero, waitEnd := Time.zero }

/-- TLS implementation. -/
def trace.TLS (t : trace) : Bool := t.tls

/-- Address implementation. -/
def trace.Address (t : trace) : String := t.addr

/-- Start implementation. -/
def trace.Start (t : trace) : Time := t.start

/-- TimeDNS implementation. -/
def trace.TimeDNS (t : trace) : Int := t.dnsEnd.Sub t.dnsStart

/-- TimeConnect implementation. -/
def trace.TimeConnect (t : trace) : Int := t.tcpEnd.Sub t.tcpStart

/-- TimeTLS implementation. -/
def trace.TimeTLS (t : trace) : Int := t.tlsEnd.Sub t.tlsStart

/-- TimeWait implementation. -/
def trace.TimeWait (t : trace) : Int := t.waitEnd.Sub t.waitStart

/-- TimeDownload implementation. -/
def trace.TimeDownload (t : trace) (now : Time) : Int := now.Sub t.waitEnd

/-- TimeResponse implementation. -/
def trace.TimeResponse (t : trace) (now : Time) : Int := now.Sub t.waitStart

/-- TimeTotal implementation. -/
def trace.TimeTotal (t : trace) (now : Time) : Int := now.Sub t.start

/-! ## `request.go`: the response and its accessors -/

/-- A value of the `Trace` interface as stored in `response.traces`: the
pointee of the `*trace` it holds, or `none` when that pointer is nil. -/
abbrev Trace := Option trace

/-- Go `http.Header`, a map from field name to its values. -/
abbrev Header := List (String × List String)

/-- Go slice indexing `xs[i]` with its run-time bounds check. -/
def index {α : Type} (xs : List α) (i : Int) : Option α :=
  if i < 0 then none else xs[i.toNat]?

/-- The `response` struct. -/
structure response where
  status : Int
  traces : List Trace
  headerSize : Int
  header : Header
  bodySize : Int
  deriving DecidableEq, Repr

/-- Status code. -/
def response.Status (r : response) : Int := r.status

/-- Last trace: `r.traces[len(r.traces)-1]`. -/
def response.last (r : response) : Option Trace :=
  index r.traces ((r.traces.length : Int) - 1)

/-- TLS implementation. -/
def response.TLS (r : response) : Option Bool :=
  r.last.bind fun t => t.map trace.TLS

/-- Redirects implementation. -/
def response.Redirects (r : response) : Int :=
  (r.traces.length : Int) - 1

/-- BodySize implementation. -/
def response.BodySize (r : response) : Int := r.bodySize

/-- HeaderSize implementation. -/
def response.HeaderSize (r : response) : Int := r.headerSize

/-- TimeDownload implementation. -/
def response.TimeDownload (r : response) (now : Time) : Option Int :=
  r.last.bind fun t => t.map fun t => t.TimeDownload now

/-- TimeResponse implementation. -/
def response.TimeResponse (r : response) (now : Time) : Option Int :=
  r.last.bind fun t => t.map fun t => t.TimeResponse now

/-- TimeDNS implementation. -/
def response.TimeDNS (r : response) : Option Int :=
  r.last.bind fun t => t.map trace.TimeDNS

/-- TimeConnect implementation. -/
def response.TimeConnect (r : response) : Option Int :=
  r.last.bind fun t => t.map trace.TimeConnect

/-- TimeTLS implementation. -/
def response.TimeTLS (r : response) : Option Int :=
  r.last.bind fun t => t.map trace.TimeTLS

/-- TimeWait implementation. -/
def response.TimeWait (r : response) : Option Int :=
  r.last.bind fun t => t.map trace.TimeWait

/-- TimeTotal implementation. -/
def response.TimeTotal (r : response) (now : Time) : Option Int :=
  r.last.bind fun t => t.map fun t => t.TimeTotal now

/-- TimeTotalWithRedirects implementation: `r.traces[0].TimeTotal(now)`. -/
def response.TimeTotalWithRedirects (r : response) (now : Time) : Option Int :=
  (index r.traces 0).bind fun t => t.map fun t => t.TimeTotal now

/-- TimeRedirects implementation. -/
def response.TimeRedirects (r : response) : Option Int :=
  if r.traces.length = 1 then some 0
  else
    (index r.traces 0).bind fun first =>
    (index r.traces ((r.traces.length : Int) - 1)).bind fun last =>
    (last.map trace.Start).bind fun ls =>
    (first.map trace.Start).bind fun fs =>
    some (ls.Sub fs)

/-- Header implementation. -/
def response.Header (r : response) : Header := r.header

/-- Traces implementation. -/
def response.Traces (r : response) : List Trace := r.traces

/-! ## `httpstat.go`: the lifecycle hooks installed by `WithTraces` -/

/-- Closure state of `WithTraces`. Recorders are allocated on `heap` and
referred to by their position in it; `t` is the captured variable
`var t *trace` (`none` while it is nil) and `traces` is the slice behind the
`traces *[]Trace` argument, each element holding a `*trace`. -/
structure TraceState where
  heap : List trace
  t : Option Nat
  traces : List (Option Nat)
  deriving DecidableEq, Repr

/-- State at the time `WithTraces` returns: `t` is nil, nothing is allocated
and the slice of the fresh `response` is empty. -/
def TraceState.init : TraceState := { heap := [], t := none, traces := [] }

/-- Allocation `t = &trace{}` followed by the given initial stores. -/
def TraceState.alloc (s : TraceState) (v : trace) : TraceState :=
  { s with heap := s.heap ++ [v], t := some s.heap.length }

/-- Store through the captured pointer, `t.field = ...`; a nil `t` panics. -/
def TraceState.store (s : TraceState) (f : trace → trace) : Option TraceState :=
  match s.t with
  | none => none
  | some p =>
    match s.heap[p]? with
    | none => none
    | some v => some { s with heap := s.heap.set p (f v) }

/-- Hook `GetConn`. -/
def GetConn (s : TraceState) (addr : String) (now : Time) : Option TraceState :=
  some (s.alloc { trace.empty with start := now, addr := addr })

/-- Hook `GotConn`; `reused` is `info.Reused`. -/
def GotConn (s : TraceState) (reused : Bool) (now : Time) : Option TraceState :=
  let s1 := if reused then s.alloc { trace.empty with start := now } else s
  some { s1 with traces := s1.traces ++ [s1.t] }

/-- Hook `DNSStart`. -/
def DNSStart (s : TraceState) (now : Time) : Option TraceState :=
  s.store fun t => { t with dnsStart := now }

/-- Hook `DNSDone`. -/
def DNSDone (s : TraceState) (now : Time) : Option TraceState :=
  s.store fun t => { t with dnsEnd := now }

/-- Hook `ConnectStart`. -/
def ConnectStart (s : TraceState) (now : Time) : Option TraceState :=
  s.store fun t => { t with tcpStart := now }

/-- Hook `ConnectDone`. -/
def ConnectDone (s : TraceState) (now : Time) : Option TraceState :=
  s.store fun t => { t with tcpEnd := now }

/-- Hook `TLSHandshakeStart`. -/
def TLSHandshakeStart (s : TraceState) (now : Time) : Option TraceState :=
  (s.store fun t => { t with tls := true }).bind fun s1 =>
  s1.store fun t => { t with tlsStart := now }

/-- Hook `TLSHandshakeDone`. -/
def TLSHandshakeDone (s : TraceState) (now : Time) : Option TraceState :=
  s.store fun t => { t with tlsEnd := now }

/-- Hook `WroteRequest`. -/
def WroteRequest (s : TraceState) (now : Time) : Option TraceState :=
  s.store fun t => { t with waitStart := now }

/-- Hook `GotFirstResponseByte`. -/
def GotFirstResponseByte (s : TraceState) (now : Time) : Option TraceState :=
  s.store fun t => { t with waitEnd := now }

/-- One invocation of a hook of the `httptrace.ClientTrace` built by
`WithTraces`, with the arguments the hook reads. -/
inductive Event where
  | GetConn (addr : String)
  | GotConn (reused : Bool)
  | DNSStart
  | DNSDone
  | ConnectStart
  | ConnectDone
  | TLSHandshakeStart
  | TLSHandshakeDone
  | WroteRequest
  | GotFirstResponseByte
  deriving DecidableEq, Repr

/-- Run the hook an event names; `now` is the value `time.Now()` returns
inside the hook. -/
def fire (s : TraceState) (now : Time) : Event → Option TraceState
  | .GetConn addr => GetConn s addr now
  | .GotConn reused => GotConn s reused now
  | .DNSStart => DNSStart s now
  | .DNSDone => DNSDone s now
  | .ConnectStart => ConnectStart s now
  | .ConnectDone => ConnectDone s now
  | .TLSHandshakeStart => TLSHandshakeStart s now
  | .TLSHandshakeDone => TLSHandshakeDone s now
  | .WroteRequest => WroteRequest s now
  | .GotFirstResponseByte => GotFirstResponseByte s now

/-- The hooks fired, in order, during one call of `client.Do`. -/
def fireAll (s : TraceState) : List (Time × Event) → Option TraceState
  | [] => some s
  | (now, e) :: rest => (fire s now e).bind fun s1 => fireAll s1 rest

/-- The slice `out.traces` as the accessors read it: every stored pointer
replaced by the recorder it points to. -/
def TraceState.view (s : TraceState) : List Trace :=
  s.traces.map fun p => p.bind fun i => s.heap[i]?

/-! ## Go `strings` helpers used by `errors.go` -/

/-- Go `strings.Contains(s, substr)` on the characters of the two strings. -/
def Strings.containsChars (sub : List Char) : List Char → Bool
  | [] => sub.isPrefixOf []
  | c :: cs => sub.isPrefixOf (c :: cs) || Strings.containsChars sub cs

/-- Go `strings.Contains(s, substr)`. -/
def Strings.Contains (s substr : String) : Bool :=
  Strings.containsChars substr.data s.data

/-- Go `strings.Replace(s, old, new, 1)` for a non-empty `old`, on the
characters of the strings: the leftmost occurrence of `old` is replaced. -/
def Strings.replaceFirstChars (old new : List Char) : List Char → List Char
  | [] => []
  | c :: cs =>
    if old.isPrefixOf (c :: cs) then new ++ (c :: cs).drop old.length
    else c :: Strings.replaceFirstChars old new cs

/-- Go `strings.Replace(s, old, new, 1)` for a non-empty `old`. -/
def Strings.ReplaceFirst (s old new : String) : String :=
  ⟨Strings.replaceFirstChars old.data new.data s.data⟩

/-! ## `errors.go`: error values and the normalizer -/

/-- A value of the Go interface type `error`, by dynamic type.

* `nil` is the nil interface value.
* `EOF`, `ErrMaxRedirectsExceeded` and `ErrTimeoutExceeded` are the three
  package-level `*errors.errorString` values the normalizer compares against
  or returns (`io.EOF` and the two variables of `errors.go`); `errorString s`
  is any other value made by `errors.New(s)`, which is never `==` to one of
  those three whatever its text.
* `Errno`, `SyscallError`, `DNSError`, `OpError`, `RecordHeaderError`,
  `HostnameError`, `UnknownAuthorityError`, `CertificateInvalidError` and
  `UrlError` are `syscall.Errno`, `*os.SyscallError`, `*net.DNSError`,
  `*net.OpError`, `tls.RecordHeaderError`, `x509.HostnameError`,
  `x509.UnknownAuthorityError`, `x509.CertificateInvalidError` and
  `*url.Error`, with the fields that are read; for the three `x509` types
  `text` is what their `Error` method renders.
* `other text timeout` is a value of any other type: `text` is what its
  `Error` method renders and `timeout` is the result of its `Timeout` method,
  `none` when the type has no such method. -/
inductive Error where
  | nil
  | EOF
  | ErrMaxRedirectsExceeded
  | ErrTimeoutExceeded
  | errorString (s : String)
  | Errno (n : Nat)
  | SyscallError (Syscall : String) (Err : Error)
  | DNSError (Err Name Server : String) (IsTimeout : Bool)
  | OpError (Op Net : String) (Source Addr : Option String) (Err : Error)
  | RecordHeaderError (Msg : String)
  | HostnameError (text : String)
  | UnknownAuthorityError (text : String)
  | CertificateInvalidError (Reason : Int) (text : String)
  | UrlError (Op URL : String) (Err : Error)
  | other (text : String) (timeout : Option Bool)
  deriving DecidableEq, Repr

/-- Constant `syscall.EAGAIN` (equal to `syscall.EWOULDBLOCK`), linux. -/
def EAGAIN : Nat := 11

/-- Constant `syscall.ECONNRESET`, linux. -/
def ECONNRESET : Nat := 104

/-- Constant `syscall.ETIMEDOUT`, linux. -/
def ETIMEDOUT : Nat := 110

/-- Constant `syscall.ECONNREFUSED`, linux. -/
def ECONNREFUSED : Nat := 111

/-- The message table of `syscall` on linux/amd64 (`errors` in
`zerrors_linux_amd64.go`), as pairs of error number and message. -/
def errnoTable : List (Nat × String) :=
  [(1, "operation not permitted"),
   (2, "no such file or directory"),
   (3, "no such process"),
   (4, "interrupted system call"),
   (5, "input/output error"),
   (6, "no such device or address"),
   (7, "argument list too long"),
   (8, "exec format error"),
   (9, "bad file descriptor"),
   (10, "no child processes"),
   (11, "resource temporarily unavailable"),
   (12, "cannot allocate memory"),
   (13, "permission denied"),
   (14, "bad address"),
   (15, "block device required"),
   (16, "device or resource busy"),
   (17, "file exists"),
   (18, "invalid cross-device link"),
   (19, "no such device"),
   (20, "not a directory"),
   (21, "is a directory"),
   (22, "invalid argument"),
   (23, "too many open files in system"),
   (24, "too many open files"),
   (25, "inappropriate ioctl for device"),
   (26, "text file busy"),
   (27, "file too large"),
   (28, "no space left on device"),
   (29, "illegal seek"),
   (30, "read-only file system"),
   (31, "too many links"),
   (32, "broken pipe"),
   (33, "numerical argument out of domain"),
   (34, "numerical result out of range"),
   (35, "resource deadlock avoided"),
   (36, "file name too long"),
   (37, "no locks available"),
   (38, "function not implemented"),
   (39, "directory not empty"),
   (40, "too many levels of symbolic links"),
   (42, "no message of desired type"),
   (43, "identifier removed"),
   (44, "channel number out of range"),
   (45, "level 2 not synchronized"),
   (46, "level 3 halted"),
   (47, "level 3 reset"),
   (48, "link number out of range"),
   (49, "protocol driver not attached"),
   (50, "no CSI structure available"),
   (51, "level 2 halted"),
   (52, "invalid exchange"),
   (53, "invalid request descriptor"),
   (54, "exchange full"),
   (55, "no anode"),
   (56, "invalid request code"),
   (57, "invalid slot"),
   (59, "bad font file format"),
   (60, "device not a stream"),
   (61, "no data available"),
   (62, "timer expired"),
   (63, "out of streams resources"),
   (64, "machine is not on the network"),
   (65, "package not installed"),
   (66, "object is remote"),
   (67, "link has been severed"),
   (68, "advertise error"),
   (69, "srmount error"),
   (70, "communication error on send"),
   (71, "protocol error"),
   (72, "multihop attempted"),
   (73, "RFS specific error"),
   (74, "bad message"),
   (75, "value too large for defined data type"),
   (76, "name not unique on network"),
   (77, "file descriptor in bad state"),
   (78, "remote address changed"),
   (79, "can not access a needed shared library"),
   (80, "accessing a corrupted shared library"),
   (81, ".lib section in a.out corrupted"),
   (82, "attempting to link in too many shared libraries"),
   (83, "cannot exec a shared library directly"),
   (84, "invalid or incomplete multibyte or wide character"),
   (85, "interrupted system call should be restarted"),
   (86, "streams pipe error"),
   (87, "too many users"),
   (88, "socket operation on non-socket"),
   (89, "destination address required"),
   (90, "message too long"),
   (91, "protocol wrong type for socket"),
   (92, "protocol not available"),
   (93, "protocol not supported"),
   (94, "socket type not supported"),
   (95, "operation not supported"),
   (96, "protocol family not supported"),
   (97, "address family not supported by protocol"),
   (98, "address already in use"),
   (99, "cannot assign requested address"),
   (100, "network is down"),
   (101, "network is unreachable"),
   (102, "network dropped connection on reset"),
   (103, "software caused connection abort"),
   (104, "connection reset by peer"),
   (105, "no buffer space available"),
   (106, "transport endpoint is already connected"),
   (107, "transport endpoint is not connected"),
   (108, "cannot send after transport endpoint shutdown"),
   (109, "too many references: cannot splice"),
   (110, "connection timed out"),
   (111, "connection refused"),
   (112, "host is down"),
   (113, "no route to host"),
   (114, "operation already in progress"),
   (115, "operation now in progress"),
   (116, "stale NFS file handle"),
   (117, "structure needs cleaning"),
   (118, "not a XENIX named type file"),
   (119, "no XENIX semaphores available"),
   (120, "is a named type file"),
   (121, "remote I/O error"),
   (122, "disk quota exceeded"),
   (123, "no medium found"),
   (124, "wrong medium type"),
   (125, "operation canceled"),
   (126, "required key not available"),
   (127, "key has expired"),
   (128, "key has been revoked"),
   (129, "key was rejected by service"),
   (130, "owner died"),
   (131, "state not recoverable"),
   (132, "operation not possible due to RF-kill"),
   (133, "memory page has hardware error")]

/-- Go `syscall.Errno.Error`: the message the table holds for the number, and
`errno N` for a number without an entry. -/
def errnoText (n : Nat) : String :=
  match errnoTable.lookup n with
  | some s => s
  | none => "errno " ++ toString n

/-- The `Timeout` method of an error value: `none` when the dynamic type has
no such method (the assertion `err.(interface{ Timeout() bool })` fails),
otherwise its result. `*url.Error`, `*net.OpError` and `*os.SyscallError`
ask their cause, `*net.DNSError` reports its `IsTimeout` field and
`syscall.Errno` is a timeout for `EAGAIN`, `EWOULDBLOCK` and `ETIMEDOUT`. -/
def Error.TimeoutMethod : Error → Option Bool
  | .nil => none
  | .EOF => none
  | .ErrMaxRedirectsExceeded => none
  | .ErrTimeoutExceeded => none
  | .errorString _ => none
  | .Errno n => some (n == EAGAIN || n == ETIMEDOUT)
  | .SyscallError _ e => some (e.TimeoutMethod == some true)
  | .DNSError _ _ _ isTimeout => some isTimeout
  | .OpError _ _ _ _ e => some (e.TimeoutMethod == some true)
  | .RecordHeaderError _ => none
  | .HostnameError _ => none
  | .UnknownAuthorityError _ => none
  | .CertificateInvalidError _ _ => none
  | .UrlError _ _ e => some (e.TimeoutMethod == some true)
  | .other _ timeout => timeout

/-- Go `err.Timeout()` on a `*url.Error` with the given cause. -/
def UrlError.Timeout (Err : Error) : Bool := Err.TimeoutMethod == some true

/-- Digit `n` of the table `lowerhex` of `strconv`. -/
def Strconv.lowerhex (n : Nat) : Char :=
  if n < 10 then Char.ofNat (48 + n) else Char.ofNat (87 + n)

/-- Go `strconv.IsPrint` on the characters up to U+00FF, where it is decided
by ranges; a character beyond U+00FF is taken as printable. -/
def Strconv.IsPrint (c : Char) : Bool :=
  if c.toNat ≤ 255 then
    (32 ≤ c.toNat && c.toNat ≤ 126) || (161 ≤ c.toNat && c.toNat ≤ 255 && c.toNat != 173)
  else true

/-- The function `appendEscapedRune` of `strconv` for the double quote: the
quote and the backslash get a backslash, a printable character is kept, the
seven control characters with a name are written by name, the other control
characters as `\x` with two digits and whatever remains as `\u` with four. -/
def Strconv.escapedRune (c : Char) : List Char :=
  if c.toNat = 34 ∨ c.toNat = 92 then [Char.ofNat 92, c]
  else if Strconv.IsPrint c then [c]
  else if c.toNat = 7 then [Char.ofNat 92, 'a']
  else if c.toNat = 8 then [Char.ofNat 92, 'b']
  else if c.toNat = 12 then [Char.ofNat 92, 'f']
  else if c.toNat = 10 then [Char.ofNat 92, 'n']
  else if c.toNat = 13 then [Char.ofNat 92, 'r']
  else if c.toNat = 9 then [Char.ofNat 92, 't']
  else if c.toNat = 11 then [Char.ofNat 92, 'v']
  else if c.toNat < 32 ∨ c.toNat = 127 then
    [Char.ofNat 92, 'x', Strconv.lowerhex (c.toNat / 16), Strconv.lowerhex (c.toNat % 16)]
  else
    [Char.ofNat 92, 'u', Strconv.lowerhex (c.toNat / 4096 % 16),
      Strconv.lowerhex (c.toNat / 256 % 16), Strconv.lowerhex (c.toNat / 16 % 16),
      Strconv.lowerhex (c.toNat % 16)]

/-- Go `strconv.Quote(s)`, what the verb `%q` of `fmt` writes for a string:
the escaped characters of `s` between double quotes. -/
def Strconv.Quote (s : String) : String :=
  ⟨Char.ofNat 34 :: (s.data.flatMap Strconv.escapedRune ++ [Char.ofNat 34])⟩

/-- The error is the nil interface value. -/
def Error.isNil : Error → Bool
  | .nil => true
  | _ => false

/-- What the verb `%s` of `fmt` writes for an operand of type `error`: for
the nil interface value the bad-verb text, for a value whose `Error` method
returns `m` the text `m`, and for a value whose `Error` method panics (`text`
is `none`) the report of the recovered panic. -/
def Fmt.verbS (isNil : Bool) (text : Option String) : String :=
  if isNil then "%!s(<nil>)"
  else
    match text with
    | some m => m
    | none =>
      "%!s(PANIC=Error method: runtime error: invalid memory address or nil pointer dereference)"

/-- The `Error` method of an error value; `none` is the panic of calling it
on a nil interface value, or of a `*os.SyscallError` or `*net.OpError`
calling it on its cause. `(*url.Error).Error` is
`fmt.Sprintf("%s %q: %s", e.Op, e.URL, e.Err)` and always returns. -/
def Error.Error : Error → Option String
  | .nil => none
  | .EOF => some "EOF"
  | .ErrMaxRedirectsExceeded => some "max redirects exceeded"
  | .ErrTimeoutExceeded => some "timeout exceeded"
  | .errorString s => some s
  | .Errno n => some (errnoText n)
  | .SyscallError sc e => e.Error.map fun m => sc ++ ": " ++ m
  | .DNSError err name server _ =>
    some ("lookup " ++ name ++ (if server = "" then "" else " on " ++ server) ++ ": " ++ err)
  | .OpError op net source addr e =>
    e.Error.map fun m =>
      op ++ (if net = "" then "" else " " ++ net)
        ++ (match source with | none => "" | some src => " " ++ src)
        ++ (match addr with
            | none => ""
            | some a => (if source.isSome then "->" else " ") ++ a)
        ++ ": " ++ m
  | .RecordHeaderError msg => some ("tls: " ++ msg)
  | .HostnameError text => some text
  | .UnknownAuthorityError text => some text
  | .CertificateInvalidError _ text => some text
  | .UrlError op url e =>
    some (op ++ " " ++ Strconv.Quote url ++ ": " ++ Fmt.verbS e.isNil e.Error)
  | .other text _ => some text

/-- The text `(*url.Error).Error` returns for the given fields. -/
def UrlError.text (Op URL : String) (Err : Httpstat.Error) : String :=
  Op ++ " " ++ Strconv.Quote URL ++ ": " ++ Fmt.verbS Err.isNil Err.Error

/-- Constants of `x509.InvalidReason`. -/
def NotAuthorizedToSign : Int := 0

/-- Constant `x509.Expired`. -/
def Expired : Int := 1

/-- Constant `x509.CANotAuthorizedForThisName`. -/
def CANotAuthorizedForThisName : Int := 2

/-- Constant `x509.TooManyIntermediates`. -/
def TooManyIntermediates : Int := 3

/-- Constant `x509.IncompatibleUsage`. -/
def IncompatibleUsage : Int := 4

/-- Constant `x509.NameMismatch`. -/
def NameMismatch : Int := 5

/-- Certificate error; the argument is an `x509.CertificateInvalidError`
with the given `Reason` and rendered `text`. -/
def certError (Reason : Int) (text : String) : Error :=
  if Reason = NotAuthorizedToSign then
    .errorString "SSL cert is not authorized to sign others"
  else if Reason = Expired then
    .errorString "SSL cert has expired"
  else if Reason = CANotAuthorizedForThisName then
    .errorString "SSL a root or intermediate cert is not authorized to sign in this domain"
  else if Reason = TooManyIntermediates then
    .errorString "SSL too many intermediates for path length constraint"
  else if Reason = IncompatibleUsage then
    .errorString "SSL certificate specifies an incompatible key usage"
  else if Reason = NameMismatch then
    .errorString "SSL issuer name does not match subject from issuing certificate"
  else
    .errorString (Strings.ReplaceFirst text "x509: " "SSL ")

/-- Syscall error; the argument is the `*os.SyscallError` with the given
fields. -/
def syscallError (Syscall : String) (Err : Error) : Error :=
  match Err with
  | .Errno n => .Errno n
  | _ => .SyscallError Syscall Err

/-- DNS error; the argument is the `*net.DNSError` with the given fields. -/
def dnsError (Err _Name _Server : String) (_IsTimeout : Bool) : Error :=
  .errorString Err

/-- Op error; the argument is the `*net.OpError` with the given fields. -/
def opError (Op Net : String) (Source Addr : Option String) (Err : Error) : Error :=
  match Err with
  | .SyscallError sc e => syscallError sc e
  | .DNSError e name server isTimeout => dnsError e name server isTimeout
  | _ => .OpError Op Net Source Addr Err

/-- URL error; the argument is the `*url.Error` with the given fields. -/
def urlError (Op URL : String) (Err : Error) : Option Error :=
  if UrlError.Timeout Err then some .ErrTimeoutExceeded
  else
    match Err with
    | .EOF => some (.Errno ECONNRESET)
    | .ErrMaxRedirectsExceeded => some .ErrMaxRedirectsExceeded
    | .OpError op net source addr e => some (opError op net source addr e)
    | .RecordHeaderError _ => some (.errorString "invalid TLS record header")
    | .HostnameError _ => some (.errorString "SSL cert is not valid for this domain")
    | .UnknownAuthorityError _ => some (.errorString "SSL cert signed by unknown authority")
    | .CertificateInvalidError reason text => some (certError reason text)
    | _ =>
      (Error.UrlError Op URL Err).Error.bind fun full =>
        if Strings.Contains full "malformed HTTP" then
          some (.errorString "malformed HTTP response")
        else
          Err.Error.map fun m => .errorString (Strings.ReplaceFirst m "net/http: " "")

/-- Normalize the given error. -/
def normalizeError (err : Error) : Option Error :=
  match err with
  | .UrlError op url e => urlError op url e
  | _ => some err

/-! ## `request.go`: redirect policy and the traced request -/

/-- Initial value of the package variable `DefaultMaxRedirects`. -/
def DefaultMaxRedirects : Int := 5

/-- An `*http.Request` as far as the redirect policy is concerned. -/
structure Request where
  Method : String
  URL : String
  deriving DecidableEq, Repr

/-- Check redirect. The first argument is the value of the package variable
`DefaultMaxRedirects` at the time of the call; the result `Error.nil` lets
the redirect proceed. -/
def checkRedirect (maxRedirects : Int) (_req : Request) (via : List Request) : Error :=
  if (via.length : Int) > maxRedirects then .ErrMaxRedirectsExceeded
  else .nil

/-- Width of the Go type `int`, which the language leaves to the platform:
32 or 64 bits. -/
inductive WordSize where
  | bits32
  | bits64
  deriving DecidableEq, Repr

/-- The value `1 << (width - 1)`: one more than the largest `int`. -/
def WordSize.half : WordSize → Int
  | .bits32 => 2 ^ 31
  | .bits64 => 2 ^ 63

/-- The largest value of the type `int`. -/
def WordSize.maxInt (ws : WordSize) : Int := ws.half - 1

/-- Two's-complement wrap of an integer into the range of the type `int`. -/
def WordSize.wrap (ws : WordSize) (x : Int) : Int :=
  (x + ws.half) % (2 * ws.half) - ws.half

/-- Write implementation of `sizeWriter`: the new counter, the number of
bytes reported written and the error. The counter is a Go `int`, and
`*w += sizeWriter(len(b))` wraps when the sum leaves its range. -/
def sizeWriter.Write (ws : WordSize) (w : Int) (b : List UInt8) : Int × Int × Error :=
  (ws.wrap (w + (b.length : Int)), (b.length : Int), .nil)

/-- Size of writes. -/
def sizeWriter.Size (w : Int) : Int := w

/-- What `client.Do` hands back on success, as far as `RequestWithClient`
reads it: status code, header, the bytes `Header.Write` serialises the header
to, the chunks the body delivers to successive reads, and the error that ends
the body stream (`Error.nil` for a body that ends with `io.EOF`). -/
structure HttpResponse where
  StatusCode : Int
  Header : Header
  headerWire : List UInt8
  bodyChunks : List (List UInt8)
  bodyErr : Error
  deriving DecidableEq, Repr

/-- Go `io.Copy(&out.bodySize, res.Body)`: every chunk read is written to
the counter; the result is the final counter and the read error, if any. -/
def ioCopy (ws : WordSize) (w : Int) (chunks : List (List UInt8)) (readErr : Error) :
    Int × Error :=
  (chunks.foldl (fun acc b => (sizeWriter.Write ws acc b).1) w, readErr)

/-- RequestWithClient performs a traced request. `ws` is the width of `int`
on the platform. The collaborators are given by what they return:
`newRequestErr` is the error of `http.NewRequest` (`Error.nil` on success),
`events` are the hooks `client.Do` fires before it returns, and `doErr`, `res`
are its two results. The outer `Option` is `none` when a hook or the
normalizer panics; otherwise the pair is the returned `(Response, error)`,
with `none` for a nil `Response`. -/
def RequestWithClient (ws : WordSize) (newRequestErr : Error) (events : List (Time × Event))
    (res : HttpResponse) (doErr : Error) : Option (Option response × Error) :=
  if newRequestErr ≠ .nil then some (none, newRequestErr)
  else
    (fireAll TraceState.init events).bind fun st =>
      if doErr ≠ .nil then
        (normalizeError doErr).map fun e => (none, e)
      else
        let copied := ioCopy ws 0 res.bodyChunks res.bodyErr
        if copied.2 ≠ .nil then some (none, copied.2)
        else
          some (some { status := res.StatusCode
                       traces := st.view
                       headerSize := (res.headerWire.length : Int)
                       header := res.Header
                       bodySize := copied.1 }, .nil)

/-! ## `request.go`, `httpstat.go`: the `Stats` snapshot -/

/-- The `Stats` struct. -/
structure Stats where
  Status : Int
  Redirects : Int
  TLS : Bool
  Header : Header
  HeaderSize : Int
  BodySize : Int
  TimeDNS : Int
  TimeConnect : Int
  TimeTLS : Int
  TimeWait : Int
  TimeResponse : Int
  TimeDownload : Int
  TimeTotal : Int
  TimeTotalWithRedirects : Int
  TimeRedirects : Int
  Traces : List Stats

/-- Stats of a trace; `now` is the value of `time.Now()` read by the call.
The fields the literal leaves out keep their zero value. -/
def trace.Stats (t : trace) (now : Time) : Stats :=
  { Status := 0, Redirects := 0
    TLS := t.TLS
    Header := [], HeaderSize := 0, BodySize := 0
    TimeDNS := t.TimeDNS
    TimeConnect := t.TimeConnect
    TimeTLS := t.TimeTLS
    TimeWait := t.TimeWait
    TimeResponse := t.TimeResponse now
    TimeDownload := t.TimeDownload now
    TimeTotal := t.TimeTotal now
    TimeTotalWithRedirects := 0, TimeRedirects := 0
    Traces := [] }

/-- The loop of `response.Stats` over `r.Traces()`: `t.Stats()` for every
element, the call on the element at position `i` reading `clock (k + i)`; a
nil element panics. -/
def statsOfTraces (clock : Nat → Time) : Nat → List Trace → Option (List Stats)
  | _, [] => some []
  | k, t :: rest =>
    (t.map fun tr => tr.Stats (clock k)).bind fun st =>
    (statsOfTraces clock (k + 1) rest).map fun sts => st :: sts

/-- Stats of a response. `clock n` is the value the `n`-th call of
`time.Now()` returns: call `0` is the one of `response.Stats` itself, the
following ones are those of the traces, in order. -/
def response.Stats (r : response) (clock : Nat → Time) : Option Stats :=
  let now := clock 0
  (statsOfTraces clock 1 r.Traces).bind fun traces =>
  r.TLS.bind fun tls =>
  r.TimeDNS.bind fun timeDNS =>
  r.TimeConnect.bind fun timeConnect =>
  r.TimeTLS.bind fun timeTLS =>
  r.TimeWait.bind fun timeWait =>
  (r.TimeResponse now).bind fun timeResponse =>
  (r.TimeDownload now).bind fun timeDownload =>
  (r.TimeTotal now).bind fun timeTotal =>
  (r.TimeTotalWithRedirects now).bind fun timeTotalWithRedirects =>
  r.TimeRedirects.map fun timeRedirects =>
    { Status := r.Status
      Redirects := r.Redirects
      TLS := tls
      Header := r.Header
      HeaderSize := r.HeaderSize
      BodySize := r.BodySize
      TimeDNS := timeDNS
      TimeConnect := timeConnect
      TimeTLS := timeTLS
      TimeWait := timeWait
      TimeResponse := timeResponse
      TimeDownload := timeDownload
      TimeTotal := timeTotal
      TimeTotalWithRedirects := timeTotalWithRedirects
      TimeRedirects := timeRedirects
      Traces := traces }

/-- The keys of the JSON object `encoding/json` writes for a `Stats` value,
following the struct tags: a field tagged `omitempty` is left out when it is
zero (a number), or empty (the header map, the slice of traces). -/
def Stats.jsonKeys (s : Stats) : List String :=
  (if s.Status = 0 then [] else ["status"])
  ++ (if s.Redirects = 0 then [] else ["redirects"])
  ++ ["tls"]
  ++ (if s.Header.isEmpty then [] else ["header"])
  ++ (if s.HeaderSize = 0 then [] else ["header_size"])
  ++ (if s.BodySize = 0 then [] else ["body_size"])
  ++ ["time_dns", "time_connect", "time_tls", "time_wait", "time_response",
      "time_download", "time_total"]
  ++ (if s.TimeTotalWithRedirects = 0 then [] else ["time_total_with_redirects"])
  ++ (if s.TimeRedirects = 0 then [] else ["time_redirects"])
  ++ (if s.Traces.isEmpty then [] else ["traces"])

/-- The event is an invocation of the `GotConn` hook. -/
def Event.isGotConn : Event → Bool
  | .GotConn _ => true
  | _ => false

/-- Number of `GotConn` invocations in a run of hooks. -/
def countGotConn (events : List (Time × Event)) : Nat :=
  events.countP fun p => p.2.isGotConn

/-- The cause of a `*url.Error` is one that `urlError` recognises by identity
or by dynamic type, after the timeout test and before it looks at any text:
`io.EOF`, `ErrMaxRedirectsExceeded`, `*net.OpError`, `tls.RecordHeaderError`,
`x509.HostnameError`, `x509.UnknownAuthorityError` or
`x509.CertificateInvalidError`. -/
def Error.shapeStep : Httpstat.Error → Bool
  | .EOF => true
  | .ErrMaxRedirectsExceeded => true
  | .OpError _ _ _ _ _ => true
  | .RecordHeaderError _ => true
  | .HostnameError _ => true
  | .UnknownAuthorityError _ => true
  | .CertificateInvalidError _ _ => true
  | _ => false

/-- The event is one of the eight timing events, that is neither `GetConn`
nor `GotConn`. -/
def Event.isTiming : Event → Bool
  | .GetConn _ => false
  | .GotConn _ => false
  | _ => true

/-- What a timing event records on a recorder, written from the event list
of the specification: DNS-start and DNS-done, TCP-connect-start and
TCP-connect-done, TLS-handshake-done, request-fully-written and
first-response-byte-received stamp their own timestamp, TLS-handshake-start
sets the TLS flag and stamps its timestamp. The two connection events record
nothing on an existing recorder. -/
def stamp (v : trace) (now : Time) : Event → trace
  | .GetConn _ => v
  | .GotConn _ => v
  | .DNSStart => { v with dnsStart := now }
  | .DNSDone => { v with dnsEnd := now }
  | .ConnectStart => { v with tcpStart := now }
  | .ConnectDone => { v with tcpEnd := now }
  | .TLSHandshakeStart => { v with tls := true, tlsStart := now }
  | .TLSHandshakeDone => { v with tlsEnd := now }
  | .WroteRequest => { v with waitStart := now }
  | .GotFirstResponseByte => { v with waitEnd := now }

/-- The recordings of a run of events on one recorder, in order. -/
def stampAll (v : trace) (events : List (Time × Event)) : trace :=
  events.foldl (fun acc e => stamp acc e.1 e.2) v

/-- Every pointer held by the state, in the slice or in the captured
variable, refers to an allocated recorder. -/
def TraceState.valid (s : TraceState) : Prop :=
  (∀ p ∈ s.traces, ∀ i, p = some i → i < s.heap.length)
  ∧ (∀ i, s.t = some i → i < s.heap.length)

/-- Start instant, in nanoseconds, of the recorder at a heap position. -/
def TraceState.startAt (s : TraceState) (i : Nat) : Option Int :=
  (s.heap[i]?).map fun v => v.start.ns

/-- Order kept by the hooks while the clock has not passed `T`: no recorder
started after `T`, recorders allocated later did not start earlier, every
element of the slice points to an allocated recorder, and later elements of
the slice do not point to earlier recorders. -/
def TraceState.ordered (s : TraceState) (T : Int) : Prop :=
  (∀ (i : Nat) (a : Int), s.startAt i = some a → a ≤ T)
  ∧ (∀ (i j : Nat) (a b : Int), i ≤ j → s.startAt i = some a → s.startAt j = some b → a ≤ b)
  ∧ (∀ (k : Nat) (p : Option Nat), s.traces[k]? = some p →
      ∃ i, p = some i ∧ i < s.heap.length)
  ∧ (∀ k l i j : Nat, k ≤ l → s.traces[k]? = some (some i) →
      s.traces[l]? = some (some j) → i ≤ j)

/-- The state is ordered and the captured variable points to the recorder
allocated last. -/
def TraceState.chrono (s : TraceState) (T : Int) : Prop :=
  (∃ n, s.heap.length = n + 1 ∧ s.t = some n) ∧ s.ordered T

/-- The error is URL-level: its dynamic type is `*url.Error`. -/
def Error.isUrlError : Httpstat.Error → Bool
  | .UrlError _ _ _ => true
  | _ => false

/-- The captured variable points to the recorder allocated last, and every
element of the slice points to an allocated recorder. -/
def TraceState.alive (s : TraceState) : Prop :=
  (∃ n, s.heap.length = n + 1 ∧ s.t = some n)
  ∧ (∀ (k : Nat) (p : Option Nat), s.traces[k]? = some p →
      ∃ i, p = some i ∧ i < s.heap.length)

/-- The event makes its hook allocate a recorder: `GetConn`, and `GotConn`
for a reused connection. -/
def Event.allocates : Event → Bool
  | .GetConn _ => true
  | .GotConn reused => reused
  | _ => false

/-- The recorder at heap position `p` holds `v` and is no longer the
captured one: the captured variable points to a recorder allocated later. -/
def TraceState.past (s : TraceState) (p : Nat) (v : trace) : Prop :=
  (∃ n, s.heap.length = n + 1 ∧ s.t = some n ∧ p < n) ∧ s.heap[p]? = some v

/-! ## Concrete values used in the examples -/

/-- Midnight of 2017-01-01 UTC, in nanoseconds since the zero time. -/
def t2017 : Time := ⟨63618825600000000000⟩

/-- The instant `ms` milliseconds after `t2017`. -/
def atMs (ms : Int) : Time := ⟨t2017.ns + ms * 1000000⟩

/-- A completed plain-HTTP hop started `ms` milliseconds after `t2017`. -/
def plainHop (ms : Int) : trace :=
  { trace.empty with
    addr := "example.com:80", start := atMs ms,
    tcpStart := atMs (ms + 1), tcpEnd := atMs (ms + 2),
    waitStart := atMs (ms + 3), waitEnd := atMs (ms + 50) }

/-- A completed HTTPS hop started `ms` milliseconds after `t2017`. -/
def tlsHop (ms : Int) : trace :=
  { trace.empty with
    addr := "example.com:443", tls := true, start := atMs ms,
    tcpStart := atMs (ms + 1), tcpEnd := atMs (ms + 2),
    tlsStart := atMs (ms + 2), tlsEnd := atMs (ms + 9),
    waitStart := atMs (ms + 10), waitEnd := atMs (ms + 35) }

/-- Response of a chain of three hops, two over plain HTTP and the final one
over HTTPS. -/
def chainResponse : response :=
  { status := 200
    traces := [some (plainHop 0), some (plainHop 51), some (tlsHop 102)]
    headerSize := 0, header := [], bodySize := 11 }

/-- Response of a request answered without redirect. -/
def singleResponse : response :=
  { status := 200, traces := [some (plainHop 0)]
    headerSize := 0, header := [], bodySize := 11 }

/-- The hooks of a request answered by a freshly dialed plain-HTTP
connection. -/
def singleHopEvents : List (Time × Event) :=
  [(atMs 0, .GetConn "example.com:80"), (atMs 1, .ConnectStart), (atMs 2, .ConnectDone),
   (atMs 2, .GotConn false), (atMs 3, .WroteRequest), (atMs 50, .GotFirstResponseByte)]

/-- A successful result of `client.Do`: status 200 and a two-byte body
delivered in one chunk. -/
def okResponse : HttpResponse :=
  { StatusCode := 200, Header := [], headerWire := [], bodyChunks := [[104, 105]],
    bodyErr := .nil }

/-- The failure `client.Do` reports when dialing is refused. -/
def refusedError : Error :=
  .UrlError "Get" "https://tjholowaychuk.com"
    (.OpError "dial" "tcp" none (some "192.0.2.1:443")
      (.SyscallError "connect" (.Errno ECONNREFUSED)))

/-- The failure `client.Do` reports when the host does not resolve. -/
def noHostError : Error :=
  .UrlError "Get" "http://whatever"
    (.OpError "dial" "tcp" none none
      (.DNSError "no such host" "whatever" "127.0.0.53:53" false))

/-- The failure `client.Do` reports when the dial times out. -/
def dialTimeoutError : Error :=
  .UrlError "Get" "http://segment.com:9999"
    (.OpError "dial" "tcp" none (some "192.0.2.2:9999")
      (.SyscallError "connect" (.Errno ETIMEDOUT)))

/-- Six requests, the list the redirect policy is consulted with before a
sixth redirect is followed. -/
def sixRequests : List Request := List.replicate 6 { Method := "GET", URL := "/" }

/-- A certificate failure with a reason outside the six that `certError`
names; its text is what `crypto/x509` renders for a reason it does not know. -/
def unknownReasonError : Error :=
  .UrlError "Get" "https://example.com" (.CertificateInvalidError 6 "x509: unknown error")

/-- The failure `client.Do` reports for a URL without a host whose query
reads `q=malformed HTTP`; the cause is the error of the transport. -/
def markerInUrlError : Error :=
  .UrlError "Get" "http:///?q=malformed HTTP" (.errorString "http: no Host in request URL")

/-- The same failure for a URL without that query. -/
def noHostInUrlError : Error :=
  .UrlError "Get" "http:///" (.errorString "http: no Host in request URL")

/-- The failure `client.Do` reports when the response headers exceed the
limit of the default transport. -/
def bigHeaderError : Error :=
  .UrlError "Get" "http://example.com/"
    (.errorString "net/http: server response headers exceeded 10485760 bytes; aborted")

/-- A failure of a transport that fetches a token with a client of its own:
the cause quotes the inner failure, so the library name stands in the middle
of its text. -/
def wrappedCancelError : Error :=
  .UrlError "Get" "https://api.example.com/"
    (.errorString "cannot fetch token: net/http: request canceled")

/-- The error `http.NewRequest` returns for the URL `://bad`: the parse
failure of `net/url`. -/
def parseError : Error :=
  .UrlError "parse" "://bad" (.errorString "missing protocol scheme")

/-- A body of 2147483648 bytes as `io.Copy` reads it through its buffer of
32768 bytes: 65536 chunks of 32768 bytes. -/
def bigBody : List (List UInt8) := List.replicate 65536 (List.replicate 32768 0)

/-- The body "hello world" delivered in one chunk of eleven bytes. -/
def helloOneChunk : List (List UInt8) :=
  [[104, 101, 108, 108, 111, 32, 119, 111, 114, 108, 100]]

/-- The body "hello world" delivered in three chunks. -/
def helloThreeChunks : List (List UInt8) :=
  [[104, 101, 108, 108, 111], [32], [119, 111, 114, 108, 100]]

/-- The hooks of a request answered after one redirect, each hop on a
freshly dialed connection. -/
def twoHopEvents : List (Time × Event) :=
  [(atMs 0, .GetConn "example.com:80"), (atMs 2, .GotConn false),
   (atMs 3, .WroteRequest), (atMs 50, .GotFirstResponseByte),
   (atMs 51, .GetConn "example.com:80"), (atMs 53, .GotConn false),
   (atMs 54, .WroteRequest), (atMs 80, .GotFirstResponseByte)]

/-- A clock that returns the instant 60ms after the reference instant at
every reading. -/
def clockAt60 : Nat → Time := fun _ => atMs 60

/-- The hooks of a freshly dialed HTTPS connection up to the point where the
connection is handed over: the request for it, name resolution, the TCP
connect and the TLS handshake. -/
def dialEvents : List (Time × Event) :=
  [(atMs 0, .GetConn "example.com:443"), (atMs 1, .DNSStart), (atMs 2, .DNSDone),
   (atMs 3, .ConnectStart), (atMs 4, .ConnectDone), (atMs 5, .TLSHandshakeStart),
   (atMs 9, .TLSHandshakeDone)]

/-- The hooks of a request answered after one redirect, the second hop on
the connection of the first. -/
def reuseEvents : List (Time × Event) :=
  [(atMs 0, .GetConn "example.com:80"), (atMs 1, .ConnectStart), (atMs 2, .ConnectDone),
   (atMs 2, .GotConn false), (atMs 3, .WroteRequest), (atMs 50, .GotFirstResponseByte),
   (atMs 51, .GetConn "example.com:80"), (atMs 51, .GotConn true),
   (atMs 52, .WroteRequest), (atMs 80, .GotFirstResponseByte)]

/-- The hooks of two hops: an HTTPS dial whose connection is handed over and
used, then the request for the next connection and its plain dial. -/
def tlsThenPlainEvents : List (Time × Event) :=
  [(atMs 0, .GetConn "example.com:443"), (atMs 3, .ConnectStart), (atMs 4, .ConnectDone),
   (atMs 5, .TLSHandshakeStart), (atMs 9, .TLSHandshakeDone), (atMs 9, .GotConn false),
   (atMs 10, .WroteRequest), (atMs 40, .GotFirstResponseByte),
   (atMs 41, .GetConn "example.org:80"), (atMs 42, .ConnectStart), (atMs 43, .ConnectDone),
   (atMs 43, .GotConn false), (atMs 44, .WroteRequest), (atMs 70, .GotFirstResponseByte)]

/-! ## Auxiliary facts -/

theorem Time.Sub_nonneg_iff (t u : Time) : 0 ≤ t.Sub u ↔ u.ns ≤ t.ns := by
  unfold Time.Sub minDuration maxDuration
  simp only
  split_ifs <;> constructor <;> intro h <;> omega

theorem Time.Sub_eq_zero_iff (t u : Time) : t.Sub u = 0 ↔ t = u := by
  have key : t.Sub u = 0 ↔ t.ns = u.ns := by
    unfold Time.Sub minDuration maxDuration
    simp only
    split_ifs <;> constructor <;> intro h <;> omega
  rw [key]
  cases t; cases u; simp

theorem Time.Sub_of_inRange (t u : Time) (h : Duration.inRange (t.ns - u.ns)) :
    t.Sub u = t.ns - u.ns := by
  unfold Duration.inRange at h
  unfold Time.Sub
  simp only
  split_ifs <;> omega

theorem Time.Sub_inRange (t u : Time) : Duration.inRange (t.Sub u) := by
  unfold Duration.inRange Time.Sub minDuration maxDuration
  simp only
  split_ifs <;> constructor <;> omega

theorem wrap64_of_inRange (x : Int) (h : Duration.inRange x) : wrap64 x = x := by
  unfold Duration.inRange minDuration maxDuration at h
  unfold wrap64
  omega

theorem index_zero_of_head {α : Type} (xs : List α) (x : α)
    (h : xs.head? = some x) : index xs 0 = some x := by
  cases xs with
  | nil => simp at h
  | cons y ys => simpa [index] using h

theorem index_last_of_getLast {α : Type} (xs : List α) (x : α)
    (h : xs.getLast? = some x) : index xs ((xs.length : Int) - 1) = some x := by
  cases xs with
  | nil => simp at h
  | cons y ys =>
    have e : (((y :: ys).length : Int) - 1).toNat = (y :: ys).length - 1 := by
      simp
    have n : ¬ (((y :: ys).length : Int) - 1 < 0) := by
      simp only [List.length_cons]; push_cast; omega
    rw [index, if_neg n, e, ← List.getLast?_eq_getElem?]
    exact h

theorem last_eq_first_of_single {α : Type} (xs : List (Option α)) (first last : α)
    (h1 : xs.length = 1) (hf : xs.head? = some (some first))
    (hl : xs.getLast? = some (some last)) : last = first := by
  obtain ⟨x, hx⟩ := List.length_eq_one.mp h1
  rw [hx] at hf hl
  simp at hf hl
  have h := hl.symm.trans hf
  exact Option.some.inj h

theorem TimeRedirects_eq_of_ends (r : response) (first last : trace)
    (hf : r.traces.head? = some (some first))
    (hl : r.traces.getLast? = some (some last)) :
    r.TimeRedirects = some (last.Start.Sub first.Start) := by
  by_cases h1 : r.traces.length = 1
  · have e : last = first := last_eq_first_of_single r.traces first last h1 hf hl
    rw [e, (Time.Sub_eq_zero_iff first.Start first.Start).mpr rfl]
    simp [response.TimeRedirects, h1]
  · simp [response.TimeRedirects, h1, index_zero_of_head _ _ hf,
      index_last_of_getLast _ _ hl]

/-! ## Derived durations of a trace -/

/-- C3: for a response whose trace sequence is non-empty, with first trace
`first` and last trace `last`, `TimeRedirects` returns the start of `last`
minus the start of `first`, and returns exactly zero when the sequence has one
hop. -/
theorem C3_TimeRedirects (r : response) (first last : trace)
    (hf : r.traces.head? = some (some first))
    (hl : r.traces.getLast? = some (some last)) :
    r.TimeRedirects = some (last.Start.Sub first.Start)
    ∧ (r.traces.length = 1 → r.TimeRedirects = some 0) := by
  refine ⟨TimeRedirects_eq_of_ends r first last hf hl, ?_⟩
  intro h1
  simp [response.TimeRedirects, h1]

/-- C3 at a chain of three hops started 0ms, 51ms and 102ms after the
reference instant, where the redirect time is 102ms, and at a response with a
single hop, where it is zero. -/
theorem C3_TimeRedirects_witness :
    chainResponse.TimeRedirects = some ((tlsHop 102).Start.Sub (plainHop 0).Start)
    ∧ (tlsHop 102).Start.Sub (plainHop 0).Start = 102000000
    ∧ singleResponse.TimeRedirects = some 0 :=
  ⟨(C3_TimeRedirects chainResponse (plainHop 0) (tlsHop 102) (by decide) (by decide)).1,
    by decide,
    (C3_TimeRedirects singleResponse (plainHop 0) (plainHop 0) (by decide) (by decide)).2
      (by decide)⟩

/-- C4: for a response whose trace sequence ends with the trace `last`,
whatever the earlier hops are, `TLS`, `TimeDNS`, `TimeConnect`, `TimeTLS`,
`TimeWait`, `TimeDownload now`, `TimeResponse now` and `TimeTotal now` return
what the same accessor returns on `last`. -/
theorem C4_last_hop (r : response) (earlier : List Trace) (last : trace) (now : Time)
    (h : r.traces = earlier ++ [some last]) :
    r.TLS = some last.TLS
    ∧ r.TimeDNS = some last.TimeDNS
    ∧ r.TimeConnect = some last.TimeConnect
    ∧ r.TimeTLS = some last.TimeTLS
    ∧ r.TimeWait = some last.TimeWait
    ∧ r.TimeDownload now = some (last.TimeDownload now)
    ∧ r.TimeResponse now = some (last.TimeResponse now)
    ∧ r.TimeTotal now = some (last.TimeTotal now) := by
  have hl : r.last = some (some last) := by
    unfold response.last
    apply index_last_of_getLast
    rw [h]; simp
  simp [response.TLS, response.TimeDNS, response.TimeConnect, response.TimeTLS,
    response.TimeWait, response.TimeDownload, response.TimeResponse,
    response.TimeTotal, hl]

/-- C4 at a chain whose two earlier hops had no TLS and whose final hop did:
the response reports what the final hop reports, in particular TLS. -/
theorem C4_last_hop_witness :
    (chainResponse.TLS = some (tlsHop 102).TLS
    ∧ chainResponse.TimeDNS = some (tlsHop 102).TimeDNS
    ∧ chainResponse.TimeConnect = some (tlsHop 102).TimeConnect
    ∧ chainResponse.TimeTLS = some (tlsHop 102).TimeTLS
    ∧ chainResponse.TimeWait = some (tlsHop 102).TimeWait
    ∧ chainResponse.TimeDownload (atMs 200) = some ((tlsHop 102).TimeDownload (atMs 200))
    ∧ chainResponse.TimeResponse (atMs 200) = some ((tlsHop 102).TimeResponse (atMs 200))
    ∧ chainResponse.TimeTotal (atMs 200) = some ((tlsHop 102).TimeTotal (atMs 200)))
    ∧ (plainHop 0).TLS = false ∧ (plainHop 51).TLS = false
    ∧ chainResponse.TLS = some true :=
  ⟨C4_last_hop chainResponse [some (plainHop 0), some (plainHop 51)] (tlsHop 102)
      (atMs 200) (by decide),
    by decide, by decide, by decide⟩

/-- C5: for a response whose trace sequence is non-empty, with first trace
`first` and last trace `last`, `TimeTotalWithRedirects now` is the time from
the start of `first` to `now`; when none of the three subtractions involved
leaves the duration range it is the sum of `TimeRedirects` and
`TimeTotal now`; and for a single hop it is `TimeTotal now`. -/
theorem C5_TimeTotalWithRedirects (r : response) (first last : trace) (now : Time)
    (hf : r.traces.head? = some (some first))
    (hl : r.traces.getLast? = some (some last)) :
    r.TimeTotalWithRedirects now = some (now.Sub first.Start)
    ∧ (Duration.inRange (now.ns - first.start.ns) →
        Duration.inRange (last.start.ns - first.start.ns) →
        Duration.inRange (now.ns - last.start.ns) →
        ∃ red tot, r.TimeRedirects = some red ∧ r.TimeTotal now = some tot
          ∧ r.TimeTotalWithRedirects now = some (Duration.add red tot))
    ∧ (r.traces.length = 1 → r.TimeTotalWithRedirects now = r.TimeTotal now) := by
  have h0 := index_zero_of_head _ _ hf
  have hlast : r.last = some (some last) := index_last_of_getLast _ _ hl
  have htot : r.TimeTotalWithRedirects now = some (now.Sub first.Start) := by
    simp [response.TimeTotalWithRedirects, h0, trace.TimeTotal, trace.Start]
  have hT : r.TimeTotal now = some (now.Sub last.Start) := by
    simp [response.TimeTotal, hlast, trace.TimeTotal, trace.Start]
  refine ⟨htot, ?_, ?_⟩
  · intro a b c
    refine ⟨_, _, (TimeRedirects_eq_of_ends r first last hf hl), hT, ?_⟩
    rw [htot]
    simp only [trace.Start, Time.Sub_of_inRange _ _ a, Time.Sub_of_inRange _ _ b,
      Time.Sub_of_inRange _ _ c, Duration.add]
    rw [wrap64_of_inRange]
    · congr 1; ring
    · have : last.start.ns - first.start.ns + (now.ns - last.start.ns)
          = now.ns - first.start.ns := by ring
      rw [this]; exact a
  · intro h1
    have e : last = first := last_eq_first_of_single r.traces first last h1 hf hl
    rw [htot, hT, e]

/-- C5 at the chain of three hops, read 200ms after the reference instant:
200ms in total, 102ms of redirects plus 98ms for the final hop. -/
theorem C5_TimeTotalWithRedirects_witness :
    chainResponse.TimeTotalWithRedirects (atMs 200) = some 200000000
    ∧ chainResponse.TimeRedirects = some 102000000
    ∧ chainResponse.TimeTotal (atMs 200) = some 98000000
    ∧ chainResponse.TimeTotalWithRedirects (atMs 200)
        = some ((atMs 200).Sub (plainHop 0).Start)
    ∧ (chainResponse.traces.length = 1 →
        chainResponse.TimeTotalWithRedirects (atMs 200) = chainResponse.TimeTotal (atMs 200)) :=
  ⟨by decide, by decide, by decide,
    (C5_TimeTotalWithRedirects chainResponse (plainHop 0) (tlsHop 102) (atMs 200)
      (by decide) (by decide)).1,
    (C5_TimeTotalWithRedirects chainResponse (plainHop 0) (tlsHop 102) (atMs 200)
      (by decide) (by decide)).2.2⟩

/-! ## The trace sequence of a completed request -/

theorem store_traces (s s1 : TraceState) (f : trace → trace)
    (h : s.store f = some s1) : s1.traces = s.traces := by
  unfold TraceState.store at h
  split at h
  · simp at h
  · split at h
    · simp at h
    · simp only [Option.some.injEq] at h
      rw [← h]

theorem fire_traces_length (s s1 : TraceState) (now : Time) (e : Event)
    (h : fire s now e = some s1) :
    s1.traces.length = s.traces.length + (if e.isGotConn then 1 else 0) := by
  cases e with
  | GetConn addr =>
    simp only [fire, GetConn, TraceState.alloc, Option.some.injEq] at h
    rw [← h]; simp [Event.isGotConn]
  | GotConn reused =>
    simp only [fire, GotConn, Option.some.injEq] at h
    rw [← h]
    cases reused <;> simp [Event.isGotConn, TraceState.alloc]
  | TLSHandshakeStart =>
    simp only [fire, TLSHandshakeStart] at h
    cases h1 : s.store (fun t => { t with tls := true }) with
    | none => rw [h1] at h; simp at h
    | some s2 =>
      rw [h1] at h
      simp only [Option.some_bind] at h
      rw [store_traces _ _ _ h, store_traces _ _ _ h1]
      simp [Event.isGotConn]
  | DNSStart =>
    simp only [fire, DNSStart] at h
    rw [store_traces _ _ _ h]; simp [Event.isGotConn]
  | DNSDone =>
    simp only [fire, DNSDone] at h
    rw [store_traces _ _ _ h]; simp [Event.isGotConn]
  | ConnectStart =>
    simp only [fire, ConnectStart] at h
    rw [store_traces _ _ _ h]; simp [Event.isGotConn]
  | ConnectDone =>
    simp only [fire, ConnectDone] at h
    rw [store_traces _ _ _ h]; simp [Event.isGotConn]
  | TLSHandshakeDone =>
    simp only [fire, TLSHandshakeDone] at h
    rw [store_traces _ _ _ h]; simp [Event.isGotConn]
  | WroteRequest =>
    simp only [fire, WroteRequest] at h
    rw [store_traces _ _ _ h]; simp [Event.isGotConn]
  | GotFirstResponseByte =>
    simp only [fire, GotFirstResponseByte] at h
    rw [store_traces _ _ _ h]; simp [Event.isGotConn]

theorem fireAll_traces_length (events : List (Time × Event)) (s s1 : TraceState)
    (h : fireAll s events = some s1) :
    s1.traces.length = s.traces.length + countGotConn events := by
  induction events generalizing s with
  | nil =>
    simp only [fireAll, Option.some.injEq] at h
    rw [← h]; simp [countGotConn]
  | cons p rest ih =>
    obtain ⟨now, e⟩ := p
    simp only [fireAll] at h
    cases h1 : fire s now e with
    | none => rw [h1] at h; simp at h
    | some s2 =>
      rw [h1] at h
      simp only [Option.some_bind] at h
      rw [ih s2 h, fire_traces_length s s2 now e h1]
      unfold countGotConn
      rw [List.countP_cons]
      simp only []
      omega

theorem countGotConn_pos (events : List (Time × Event)) (now : Time) (reused : Bool)
    (h : (now, Event.GotConn reused) ∈ events) : 0 < countGotConn events := by
  unfold countGotConn
  rw [List.countP_pos_iff]
  exact ⟨_, h, rfl⟩

theorem RequestWithClient_traces (ws : WordSize) (newRequestErr doErr err : Error)
    (events : List (Time × Event)) (res : HttpResponse) (out : response)
    (h : RequestWithClient ws newRequestErr events res doErr = some (some out, err)) :
    out.traces.length = countGotConn events := by
  unfold RequestWithClient at h
  split at h
  · simp at h
  · cases hs : fireAll TraceState.init events with
    | none => rw [hs] at h; simp at h
    | some st =>
      rw [hs] at h
      simp only [Option.some_bind] at h
      split at h
      · cases hn : normalizeError doErr with
        | none => rw [hn] at h; simp at h
        | some e => rw [hn] at h; simp at h
      · split at h
        · simp at h
        · simp only [Option.some.injEq, Prod.mk.injEq] at h
          rw [← h.1]
          simp only [TraceState.view, List.length_map]
          rw [fireAll_traces_length events _ st hs]
          simp [TraceState.init]

theorem countGotConn_pos_iff (events : List (Time × Event)) :
    0 < countGotConn events ↔ ∃ now reused, (now, Event.GotConn reused) ∈ events := by
  constructor
  · intro h
    unfold countGotConn at h
    rw [List.countP_pos_iff] at h
    obtain ⟨⟨now, e⟩, hmem, he⟩ := h
    cases e with
    | GotConn reused => exact ⟨now, reused, hmem⟩
    | _ => simp [Event.isGotConn] at he
  · rintro ⟨now, reused, h⟩
    exact countGotConn_pos events now reused h

/-- C2, as the claim states it, fails: a request completed by a client
whose transport fires no hook returns a response with an empty trace sequence,
and its `Redirects` is -1. -/
theorem C2_counterexample :
    ∃ out, RequestWithClient .bits64 .nil [] okResponse .nil = some (some out, .nil)
      ∧ out.traces = [] ∧ out.Redirects = -1 :=
  ⟨{ status := 200, traces := [], headerSize := 0, header := [], bodySize := 2 },
    by decide, rfl, by decide⟩

/-- C2, amended: for every response that `RequestWithClient` returns,
`Redirects` is the number of traces in its sequence minus one, which is the
number of connection-acquired events fired during the request minus one; it
is not negative exactly when at least one connection-acquired event fired. -/
theorem C2_Redirects (ws : WordSize) (newRequestErr doErr err : Error)
    (events : List (Time × Event)) (res : HttpResponse) (out : response)
    (h : RequestWithClient ws newRequestErr events res doErr = some (some out, err)) :
    out.Redirects = (out.traces.length : Int) - 1
    ∧ out.Redirects = (countGotConn events : Int) - 1
    ∧ (0 ≤ out.Redirects ↔ ∃ now reused, (now, Event.GotConn reused) ∈ events) := by
  have hlen := RequestWithClient_traces ws newRequestErr doErr err events res out h
  have hiff := countGotConn_pos_iff events
  refine ⟨rfl, ?_, ?_⟩
  · unfold response.Redirects
    omega
  · rw [← hiff]
    unfold response.Redirects
    omega

/-- C2 at a request answered over one freshly dialed connection: one
connection-acquired event, one trace, no redirects. -/
theorem C2_Redirects_witness :
    ∃ out, RequestWithClient .bits64 .nil singleHopEvents okResponse .nil
        = some (some out, .nil)
      ∧ out.Redirects = (out.traces.length : Int) - 1
      ∧ out.Redirects = (countGotConn singleHopEvents : Int) - 1
      ∧ (0 ≤ out.Redirects ↔ ∃ now reused, (now, Event.GotConn reused) ∈ singleHopEvents)
      ∧ out.Redirects = 0 :=
  ⟨{ status := 200
     traces := [some { trace.empty with
                        addr := "example.com:80", start := atMs 0,
                        tcpStart := atMs 1, tcpEnd := atMs 2,
                        waitStart := atMs 3, waitEnd := atMs 50 }]
     headerSize := 0, header := [], bodySize := 2 },
    by decide,
    (C2_Redirects .bits64 .nil .nil .nil singleHopEvents okResponse _ (by decide)).1,
    (C2_Redirects .bits64 .nil .nil .nil singleHopEvents okResponse _ (by decide)).2.1,
    (C2_Redirects .bits64 .nil .nil .nil singleHopEvents okResponse _ (by decide)).2.2,
    by decide⟩

/-! ## Redirect policy -/

/-- C6: `checkRedirect` signals `ErrMaxRedirectsExceeded` exactly when the
list of requests attempted so far is longer than the maximum redirect count,
and returns no error otherwise; with the default maximum the bound is 5. -/
theorem C6_checkRedirect (maxRedirects : Int) (req : Request) (via : List Request) :
    (checkRedirect maxRedirects req via = .ErrMaxRedirectsExceeded
        ↔ maxRedirects < (via.length : Int))
    ∧ (checkRedirect maxRedirects req via = .nil ↔ (via.length : Int) ≤ maxRedirects)
    ∧ (checkRedirect DefaultMaxRedirects req via = .ErrMaxRedirectsExceeded
        ↔ 5 < via.length) := by
  unfold checkRedirect DefaultMaxRedirects
  refine ⟨?_, ?_, ?_⟩
  · split_ifs with h <;> simp <;> omega
  · split_ifs with h <;> simp <;> omega
  · split_ifs with h <;> simp <;> omega

/-! ## Error normalizer -/

/-- C7: for every URL-level error that reports a timeout, whatever its
operation, URL and cause, `normalizeError` returns `ErrTimeoutExceeded`, whose
message is "timeout exceeded". -/
theorem C7_timeout_first (op url : String) (cause : Error)
    (h : UrlError.Timeout cause = true) :
    normalizeError (.UrlError op url cause) = some .ErrTimeoutExceeded
    ∧ Error.ErrTimeoutExceeded.Error = some "timeout exceeded" := by
  simp [normalizeError, urlError, h, Error.Error]

/-- C7 at a dial that timed out: the cause is a network-operation failure
wrapping a syscall error, which step 4 would surface as the errno, and the
result is the timeout error all the same. -/
theorem C7_timeout_first_witness :
    dialTimeoutError = .UrlError "Get" "http://segment.com:9999"
        (.OpError "dial" "tcp" none (some "192.0.2.2:9999")
          (.SyscallError "connect" (.Errno ETIMEDOUT)))
    ∧ normalizeError dialTimeoutError = some .ErrTimeoutExceeded
    ∧ Error.ErrTimeoutExceeded.Error = some "timeout exceeded" :=
  ⟨rfl, C7_timeout_first "Get" "http://segment.com:9999" _ (by decide)⟩

/-- C8: a URL-level error whose cause is `ErrMaxRedirectsExceeded` is never
a timeout, and `normalizeError` returns that same `ErrMaxRedirectsExceeded`,
whose message is "max redirects exceeded"; so when `client.Do` fails with the
signal the redirect policy raised for a list longer than the maximum,
`RequestWithClient` returns no response and exactly that error. -/
theorem C8_max_redirects (ws : WordSize) (op url : String) (maxRedirects : Int)
    (req : Request) (via : List Request) (events : List (Time × Event))
    (res : HttpResponse) (st : TraceState) (hvia : maxRedirects < (via.length : Int))
    (hev : fireAll TraceState.init events = some st) :
    UrlError.Timeout .ErrMaxRedirectsExceeded = false
    ∧ normalizeError (.UrlError op url .ErrMaxRedirectsExceeded)
        = some .ErrMaxRedirectsExceeded
    ∧ Error.ErrMaxRedirectsExceeded.Error = some "max redirects exceeded"
    ∧ RequestWithClient ws .nil events res
        (.UrlError op url (checkRedirect maxRedirects req via))
        = some (none, .ErrMaxRedirectsExceeded) := by
  have hc : checkRedirect maxRedirects req via = .ErrMaxRedirectsExceeded := by
    unfold checkRedirect
    rw [if_pos]
    exact hvia
  have hn : normalizeError (.UrlError op url .ErrMaxRedirectsExceeded)
      = some .ErrMaxRedirectsExceeded := by
    simp [normalizeError, urlError, UrlError.Timeout, Error.TimeoutMethod]
  refine ⟨by simp [UrlError.Timeout, Error.TimeoutMethod], hn, by simp [Error.Error], ?_⟩
  rw [hc]
  unfold RequestWithClient
  simp [hev, hn]

/-- C8 at a request redirected to itself for ever: the policy sees six
requests with the default maximum of five. -/
theorem C8_max_redirects_witness :
    UrlError.Timeout .ErrMaxRedirectsExceeded = false
    ∧ normalizeError (.UrlError "Get" "/" .ErrMaxRedirectsExceeded)
        = some .ErrMaxRedirectsExceeded
    ∧ Error.ErrMaxRedirectsExceeded.Error = some "max redirects exceeded"
    ∧ RequestWithClient .bits64 .nil singleHopEvents okResponse
        (.UrlError "Get" "/"
          (checkRedirect DefaultMaxRedirects { Method := "GET", URL := "/" } sixRequests))
        = some (none, .ErrMaxRedirectsExceeded) :=
  C8_max_redirects .bits64 "Get" "/" DefaultMaxRedirects { Method := "GET", URL := "/" }
    sixRequests singleHopEvents okResponse
    { heap := [{ trace.empty with
                  addr := "example.com:80", start := atMs 0,
                  tcpStart := atMs 1, tcpEnd := atMs 2,
                  waitStart := atMs 3, waitEnd := atMs 50 }]
      t := some 0, traces := [some 0] }
    (by decide) (by decide)

/-- C9: a URL-level error whose cause is `io.EOF` is never a timeout, and
`normalizeError` returns `syscall.ECONNRESET`, whose message is "connection
reset by peer". -/
theorem C9_connection_reset (op url : String) :
    UrlError.Timeout .EOF = false
    ∧ normalizeError (.UrlError op url .EOF) = some (.Errno ECONNRESET)
    ∧ (Error.Errno ECONNRESET).Error = some "connection reset by peer" := by
  refine ⟨by simp [UrlError.Timeout, Error.TimeoutMethod], ?_, by decide⟩
  simp [normalizeError, urlError, UrlError.Timeout, Error.TimeoutMethod]

/-- C10: for a URL-level error that is not a timeout and whose cause is a
network-operation failure: when that failure wraps a syscall error holding an
errno, `normalizeError` returns the errno itself, whose message is the errno
text alone; when it wraps a syscall error holding anything else, the syscall
error itself is returned; when it wraps a name-resolution failure, the result
is an error whose message is exactly the failure's own `Err` text. -/
theorem C10_opError (op url o net : String) (source addr : Option String) :
    (∀ sc n,
      UrlError.Timeout (.OpError o net source addr (.SyscallError sc (.Errno n))) = false →
      normalizeError (.UrlError op url (.OpError o net source addr (.SyscallError sc (.Errno n))))
        = some (.Errno n)
      ∧ (Error.Errno n).Error = some (errnoText n))
    ∧ (∀ sc e, (∀ n, e ≠ .Errno n) →
      UrlError.Timeout (.OpError o net source addr (.SyscallError sc e)) = false →
      normalizeError (.UrlError op url (.OpError o net source addr (.SyscallError sc e)))
        = some (.SyscallError sc e))
    ∧ (∀ msg name server isTimeout,
      UrlError.Timeout (.OpError o net source addr (.DNSError msg name server isTimeout))
        = false →
      ∃ r, normalizeError
            (.UrlError op url (.OpError o net source addr (.DNSError msg name server isTimeout)))
          = some r
        ∧ r.Error = some msg) := by
  refine ⟨?_, ?_, ?_⟩
  · intro sc n h
    simp [normalizeError, urlError, h, opError, syscallError, Error.Error]
  · intro sc e he h
    simp only [normalizeError, urlError, h, opError]
    cases e <;> simp_all [syscallError]
  · intro msg name server isTimeout h
    exact ⟨.errorString msg, by simp [normalizeError, urlError, h, opError, dnsError],
      by simp [Error.Error]⟩

/-- C10 at a refused dial and at a host that does not resolve: the results
read "connection refused" and "no such host". -/
theorem C10_opError_witness :
    (normalizeError refusedError = some (.Errno ECONNREFUSED)
      ∧ (Error.Errno ECONNREFUSED).Error = some (errnoText ECONNREFUSED))
    ∧ errnoText ECONNREFUSED = "connection refused"
    ∧ ∃ r, normalizeError noHostError = some r ∧ r.Error = some "no such host" :=
  ⟨(C10_opError "Get" "https://tjholowaychuk.com" "dial" "tcp" none
      (some "192.0.2.1:443")).1 "connect" ECONNREFUSED (by decide),
    by decide,
    (C10_opError "Get" "http://whatever" "dial" "tcp" none none).2.2
      "no such host" "whatever" "127.0.0.53:53" false (by decide)⟩

/-! ## Text replacement -/

theorem isPrefixOf_append_self (old rest : List Char) :
    old.isPrefixOf (old ++ rest) = true := by
  rw [List.isPrefixOf_iff_prefix]
  exact List.prefix_append old rest

theorem replaceFirstChars_front (old new rest : List Char) (h : old ≠ []) :
    Strings.replaceFirstChars old new (old ++ rest) = new ++ rest := by
  cases old with
  | nil => exact absurd rfl h
  | cons c cs =>
    have hp := isPrefixOf_append_self (c :: cs) rest
    rw [List.cons_append] at hp ⊢
    rw [Strings.replaceFirstChars, if_pos hp]
    congr 1
    rw [← List.cons_append]
    exact List.drop_left _ _

theorem replaceFirstChars_absent (old new : List Char) (s : List Char)
    (h : Strings.containsChars old s = false) :
    Strings.replaceFirstChars old new s = s := by
  induction s with
  | nil => rfl
  | cons c cs ih =>
    simp only [Strings.containsChars, Bool.or_eq_false_iff] at h
    rw [Strings.replaceFirstChars, if_neg (by simp [h.1]), ih h.2]

theorem replaceFirstChars_leftmost (old new pre post : List Char) (h : old ≠ [])
    (hpre : ∀ k, k < pre.length → old.isPrefixOf ((pre ++ old ++ post).drop k) = false) :
    Strings.replaceFirstChars old new (pre ++ old ++ post) = pre ++ new ++ post := by
  induction pre with
  | nil => simpa using replaceFirstChars_front old new post h
  | cons c cs ih =>
    have h0 := hpre 0 (by simp)
    simp only [List.drop_zero] at h0
    simp only [List.cons_append] at h0 ⊢
    rw [Strings.replaceFirstChars, if_neg (by rw [h0]; exact Bool.false_ne_true)]
    congr 1
    apply ih
    intro k hk
    have := hpre (k + 1) (by simpa using hk)
    simpa using this

theorem ReplaceFirst_front (old new rest : String) (h : old ≠ "") :
    Strings.ReplaceFirst (old ++ rest) old new = new ++ rest := by
  have hd : old.data ≠ [] := by
    intro e
    apply h
    exact String.ext e
  apply String.ext
  simp only [Strings.ReplaceFirst, String.data_append]
  exact replaceFirstChars_front _ _ _ hd

theorem ReplaceFirst_absent (s old new : String) (h : Strings.Contains s old = false) :
    Strings.ReplaceFirst s old new = s := by
  apply String.ext
  simp only [Strings.ReplaceFirst]
  exact replaceFirstChars_absent _ _ _ h

/-! ## Error normalizer: TLS and certificate causes -/

/-- C11: for a URL-level error whose cause is a TLS record-header error, a
hostname mismatch, an unknown authority or a certificate-invalid error (none
of which can be a timeout or match an earlier step), `normalizeError` returns
an error with a fixed text: "invalid TLS record header", "SSL cert is not valid
for this domain", "SSL cert signed by unknown authority", one fixed sentence
for each of the six named reasons, and for every other reason, whose rendered
text is "x509: " followed by the reason message, "SSL " followed by that
message. -/
theorem C11_tls_cert_messages (op url : String) :
    (∀ msg, normalizeError (.UrlError op url (.RecordHeaderError msg))
        = some (.errorString "invalid TLS record header"))
    ∧ (∀ text, normalizeError (.UrlError op url (.HostnameError text))
        = some (.errorString "SSL cert is not valid for this domain"))
    ∧ (∀ text, normalizeError (.UrlError op url (.UnknownAuthorityError text))
        = some (.errorString "SSL cert signed by unknown authority"))
    ∧ (∀ text, normalizeError (.UrlError op url (.CertificateInvalidError NotAuthorizedToSign text))
        = some (.errorString "SSL cert is not authorized to sign others"))
    ∧ (∀ text, normalizeError (.UrlError op url (.CertificateInvalidError Expired text))
        = some (.errorString "SSL cert has expired"))
    ∧ (∀ text,
        normalizeError (.UrlError op url (.CertificateInvalidError CANotAuthorizedForThisName text))
        = some (.errorString
            "SSL a root or intermediate cert is not authorized to sign in this domain"))
    ∧ (∀ text, normalizeError (.UrlError op url (.CertificateInvalidError TooManyIntermediates text))
        = some (.errorString "SSL too many intermediates for path length constraint"))
    ∧ (∀ text, normalizeError (.UrlError op url (.CertificateInvalidError IncompatibleUsage text))
        = some (.errorString "SSL certificate specifies an incompatible key usage"))
    ∧ (∀ text, normalizeError (.UrlError op url (.CertificateInvalidError NameMismatch text))
        = some (.errorString "SSL issuer name does not match subject from issuing certificate"))
    ∧ (∀ reason rest, (reason < 0 ∨ 5 < reason) →
        normalizeError (.UrlError op url (.CertificateInvalidError reason ("x509: " ++ rest)))
        = some (.errorString ("SSL " ++ rest)))
    ∧ (∀ text, (Error.errorString text).Error = some text) := by
  refine ⟨?_, ?_, ?_, ?_, ?_, ?_, ?_, ?_, ?_, ?_, ?_⟩
  · intro msg
    simp [normalizeError, urlError, UrlError.Timeout, Error.TimeoutMethod]
  · intro text
    simp [normalizeError, urlError, UrlError.Timeout, Error.TimeoutMethod]
  · intro text
    simp [normalizeError, urlError, UrlError.Timeout, Error.TimeoutMethod]
  · intro text
    simp [normalizeError, urlError, UrlError.Timeout, Error.TimeoutMethod, certError]
  · intro text
    simp [normalizeError, urlError, UrlError.Timeout, Error.TimeoutMethod, certError,
      Expired, NotAuthorizedToSign]
  · intro text
    simp [normalizeError, urlError, UrlError.Timeout, Error.TimeoutMethod, certError,
      Expired, NotAuthorizedToSign, CANotAuthorizedForThisName]
  · intro text
    simp [normalizeError, urlError, UrlError.Timeout, Error.TimeoutMethod, certError,
      Expired, NotAuthorizedToSign, CANotAuthorizedForThisName, TooManyIntermediates]
  · intro text
    simp [normalizeError, urlError, UrlError.Timeout, Error.TimeoutMethod, certError,
      Expired, NotAuthorizedToSign, CANotAuthorizedForThisName, TooManyIntermediates,
      IncompatibleUsage]
  · intro text
    simp [normalizeError, urlError, UrlError.Timeout, Error.TimeoutMethod, certError,
      Expired, NotAuthorizedToSign, CANotAuthorizedForThisName, TooManyIntermediates,
      IncompatibleUsage, NameMismatch]
  · intro reason rest hr
    have h0 : ¬ reason = NotAuthorizedToSign := by unfold NotAuthorizedToSign; omega
    have h1 : ¬ reason = Expired := by unfold Expired; omega
    have h2 : ¬ reason = CANotAuthorizedForThisName := by
      unfold CANotAuthorizedForThisName; omega
    have h3 : ¬ reason = TooManyIntermediates := by unfold TooManyIntermediates; omega
    have h4 : ¬ reason = IncompatibleUsage := by unfold IncompatibleUsage; omega
    have h5 : ¬ reason = NameMismatch := by unfold NameMismatch; omega
    have hrep : Strings.ReplaceFirst ("x509: " ++ rest) "x509: " "SSL " = "SSL " ++ rest :=
      ReplaceFirst_front "x509: " "SSL " rest (by decide)
    simp [normalizeError, urlError, UrlError.Timeout, Error.TimeoutMethod, certError,
      h0, h1, h2, h3, h4, h5, hrep]
  · intro text
    rfl

/-- C11 at a certificate failure with a reason outside the six named ones:
the text "x509: unknown error" becomes "SSL unknown error". -/
theorem C11_tls_cert_messages_witness :
    normalizeError unknownReasonError = some (.errorString "SSL unknown error") := by
  have h := (C11_tls_cert_messages "Get" "https://example.com").2.2.2.2.2.2.2.2.2.1
    6 "unknown error" (by decide)
  exact h

/-! ## Error normalizer: the text steps -/

theorem urlError_text_steps (op url : String) (cause : Error)
    (ht : UrlError.Timeout cause = false) (hs : cause.shapeStep = false) :
    urlError op url cause =
      if Strings.Contains (UrlError.text op url cause) "malformed HTTP" then
        some (.errorString "malformed HTTP response")
      else
        cause.Error.map fun m => .errorString (Strings.ReplaceFirst m "net/http: " "") := by
  unfold urlError
  rw [if_neg (by rw [ht]; exact Bool.false_ne_true)]
  cases cause <;> first | rfl | (simp [Error.shapeStep] at hs)

theorem urlError_fallback (op url : String) (cause : Error) (m : String)
    (ht : UrlError.Timeout cause = false) (hs : cause.shapeStep = false)
    (hm : cause.Error = some m)
    (hmal : Strings.Contains (UrlError.text op url cause) "malformed HTTP" = false) :
    normalizeError (.UrlError op url cause)
      = some (.errorString (Strings.ReplaceFirst m "net/http: " "")) := by
  simp only [normalizeError]
  rw [urlError_text_steps op url cause ht hs, hmal, hm]
  simp

/-- C12, the code at a failing input: a failure whose cause reads "http: no
Host in request URL", with no marker in it, is reported as "malformed HTTP
response" because the URL of the request contains "malformed HTTP"; the same
failure for a URL without those words is reported with the text of its
cause. -/
theorem C12_marker_in_url :
    normalizeError markerInUrlError = some (.errorString "malformed HTTP response")
    ∧ Strings.Contains "http: no Host in request URL" "malformed HTTP" = false
    ∧ normalizeError noHostInUrlError = some (.errorString "http: no Host in request URL") := by
  decide

/-- C13, as the claim states it, fails: a cause whose text does not start
with "net/http: " but holds it further on is not returned unchanged, the
library name is cut out of the middle. -/
theorem C13_counterexample :
    ("net/http: ".data.isPrefixOf "cannot fetch token: net/http: request canceled".data) = false
    ∧ normalizeError wrappedCancelError
        = some (.errorString "cannot fetch token: request canceled") := by
  decide

/-- C13, amended: for every URL-level error matched by none of steps 1-10
(no timeout, a cause that is none of the recognised values or types and
renders the text `m`, no "malformed HTTP" in the text of the URL-level error),
`normalizeError` returns an error whose message is `m` with the leftmost
occurrence of "net/http: " removed: the remainder when `m` starts with it,
`pre` followed by `post` when `m` is `pre`, the library name and `post` with no
earlier occurrence, and `m` unchanged when `m` does not contain it. -/
theorem C13_fallback (op url : String) (cause : Error) (m : String)
    (ht : UrlError.Timeout cause = false) (hs : cause.shapeStep = false)
    (hm : cause.Error = some m)
    (hmal : Strings.Contains (UrlError.text op url cause) "malformed HTTP" = false) :
    (∃ r, normalizeError (.UrlError op url cause) = some r
        ∧ r.Error = some (Strings.ReplaceFirst m "net/http: " ""))
    ∧ (∀ rest, m = "net/http: " ++ rest → Strings.ReplaceFirst m "net/http: " "" = rest)
    ∧ (∀ pre post, m = pre ++ "net/http: " ++ post →
        (∀ k, k < pre.length → "net/http: ".data.isPrefixOf (m.data.drop k) = false) →
        Strings.ReplaceFirst m "net/http: " "" = pre ++ post)
    ∧ (Strings.Contains m "net/http: " = false → Strings.ReplaceFirst m "net/http: " "" = m) := by
  refine ⟨⟨_, urlError_fallback op url cause m ht hs hm hmal, rfl⟩, ?_, ?_, ?_⟩
  · intro rest e
    rw [e, ReplaceFirst_front "net/http: " "" rest (by decide)]
    simp
  · intro pre post e hk
    apply String.ext
    simp only [Strings.ReplaceFirst, String.data_append]
    have hd : m.data = pre.data ++ "net/http: ".data ++ post.data := by
      rw [e]; simp [String.data_append]
    rw [hd]
    have := replaceFirstChars_leftmost "net/http: ".data "".data pre.data post.data
      (by decide) (by
        intro k hlt
        rw [← hd]
        exact hk k (by simpa using hlt))
    rw [this]
    simp
  · intro h
    exact ReplaceFirst_absent m "net/http: " "" h

/-- C13 at response headers beyond the limit: the text of the cause loses
its leading "net/http: ". -/
theorem C13_fallback_witness :
    (∃ r, normalizeError bigHeaderError = some r
        ∧ r.Error = some (Strings.ReplaceFirst
            "net/http: server response headers exceeded 10485760 bytes; aborted"
            "net/http: " ""))
    ∧ Strings.ReplaceFirst
          "net/http: server response headers exceeded 10485760 bytes; aborted" "net/http: " ""
        = "server response headers exceeded 10485760 bytes; aborted" :=
  ⟨(C13_fallback "Get" "http://example.com/"
      (.errorString "net/http: server response headers exceeded 10485760 bytes; aborted")
      "net/http: server response headers exceeded 10485760 bytes; aborted"
      (by decide) (by decide) (by decide) (by decide)).1,
    (C13_fallback "Get" "http://example.com/"
      (.errorString "net/http: server response headers exceeded 10485760 bytes; aborted")
      "net/http: server response headers exceeded 10485760 bytes; aborted"
      (by decide) (by decide) (by decide) (by decide)).2.1
      "server response headers exceeded 10485760 bytes; aborted" (by decide)⟩

/-- C15, the code at a failing input: for the URL `://bad` the request
cannot be constructed and `RequestWithClient` returns the parse failure as it
is, with the text `parse "://bad": missing protocol scheme`, while the
normalizer turns that failure into "missing protocol scheme", as it would
have been had the client call failed with it. -/
theorem C15_unnormalized_parse_error (ws : WordSize) :
    RequestWithClient ws parseError [] okResponse .nil = some (none, parseError)
    ∧ parseError.Error = some "parse \x22://bad\x22: missing protocol scheme"
    ∧ normalizeError parseError = some (.errorString "missing protocol scheme")
    ∧ RequestWithClient ws .nil [] okResponse parseError
        = some (none, .errorString "missing protocol scheme") := by
  cases ws <;> decide

/-! ## The byte-counting sink -/

theorem WordSize.wrap_of_range (ws : WordSize) (x : Int)
    (h0 : -ws.half ≤ x) (h1 : x ≤ ws.maxInt) : ws.wrap x = x := by
  cases ws <;> simp only [WordSize.half, WordSize.maxInt, WordSize.wrap] at * <;> omega

theorem WordSize.wrap_wrap_add (ws : WordSize) (a c : Int) :
    ws.wrap (ws.wrap a + c) = ws.wrap (a + c) := by
  cases ws <;> simp only [WordSize.half, WordSize.wrap] <;> omega

theorem WordSize.half_pos (ws : WordSize) : 0 < ws.half := by
  cases ws <;> simp [WordSize.half]

theorem foldl_Write (ws : WordSize) (chunks : List (List UInt8)) (w : Int) :
    ws.wrap (chunks.foldl (fun acc b => (sizeWriter.Write ws acc b).1) w)
      = ws.wrap (w + ((chunks.map List.length).sum : Nat)) := by
  induction chunks generalizing w with
  | nil => simp
  | cons b rest ih =>
    simp only [List.foldl_cons, List.map_cons, List.sum_cons]
    rw [ih]
    simp only [sizeWriter.Write]
    rw [WordSize.wrap_wrap_add]
    push_cast
    congr 1
    omega

theorem foldl_Write_wrapped (ws : WordSize) (chunks : List (List UInt8)) (w : Int)
    (hw : ws.wrap w = w) :
    ws.wrap (chunks.foldl (fun acc b => (sizeWriter.Write ws acc b).1) w)
      = chunks.foldl (fun acc b => (sizeWriter.Write ws acc b).1) w := by
  induction chunks generalizing w with
  | nil => simpa using hw
  | cons b rest ih =>
    simp only [List.foldl_cons]
    apply ih
    simp only [sizeWriter.Write]
    have h := WordSize.wrap_wrap_add ws (w + (b.length : Int)) 0
    simpa using h

theorem ioCopy_size (ws : WordSize) (chunks : List (List UInt8)) (e : Error) :
    (ioCopy ws 0 chunks e).1 = ws.wrap (chunks.flatten.length : Int) := by
  have hz : ws.wrap 0 = 0 :=
    WordSize.wrap_of_range ws 0 (by have := WordSize.half_pos ws; omega)
      (by have := WordSize.half_pos ws; unfold WordSize.maxInt; omega)
  simp only [ioCopy]
  rw [← foldl_Write_wrapped ws chunks 0 hz, foldl_Write, List.length_flatten]
  simp

theorem RequestWithClient_bodySize (ws : WordSize) (newRequestErr doErr err : Error)
    (events : List (Time × Event)) (res : HttpResponse) (out : response)
    (h : RequestWithClient ws newRequestErr events res doErr = some (some out, err)) :
    out.bodySize = (ioCopy ws 0 res.bodyChunks res.bodyErr).1 := by
  unfold RequestWithClient at h
  split at h
  · simp at h
  · cases hs : fireAll TraceState.init events with
    | none => rw [hs] at h; simp at h
    | some st =>
      rw [hs] at h
      simp only [Option.some_bind] at h
      split at h
      · cases hn : normalizeError doErr with
        | none => rw [hn] at h; simp at h
        | some e => rw [hn] at h; simp at h
      · split at h
        · simp at h
        · simp only [Option.some.injEq, Prod.mk.injEq] at h
          rw [← h.1]

theorem length_flatten_replicate (n m : Nat) (x : UInt8) :
    (List.replicate n (List.replicate m x)).flatten.length = n * m := by
  rw [List.length_flatten, List.map_replicate, List.length_replicate, List.sum_replicate,
    smul_eq_mul]

/-- C16, as the claim states it, fails: where `int` is 32 bits wide, after
the 65536 chunks of 32768 bytes of a body of 2147483648 bytes have been
written to a counter that starts at zero, `Size` is -2147483648, not the sum
of the chunk lengths. -/
theorem C16_counterexample :
    (bigBody.map List.length).sum = 2147483648
    ∧ sizeWriter.Size (ioCopy .bits32 0 bigBody .nil).1 = -2147483648 := by
  have hlen : bigBody.flatten.length = 2147483648 := by
    unfold bigBody
    rw [length_flatten_replicate]
  refine ⟨by rw [← List.length_flatten]; exact hlen, ?_⟩
  rw [sizeWriter.Size, ioCopy_size, hlen]
  decide

/-- C16, amended: a `Write` to a `sizeWriter` reports all the bytes of the
chunk written and no error, and adds their number to the counter in the
arithmetic of `int`; after the chunks of a body have been copied to a counter
that starts at zero, `Size` is the length of the body wrapped into the range
of `int`, whatever the split into chunks, so it is the sum of the chunk
lengths whenever the body is not longer than the largest `int`; and the
`BodySize` of a response returned by `RequestWithClient` is that value,
whatever hooks fired. -/
theorem C16_sizeWriter (ws : WordSize) (w : Int) (b : List UInt8)
    (chunks : List (List UInt8)) (readErr : Error) :
    (sizeWriter.Write ws w b).2 = ((b.length : Int), Error.nil)
    ∧ sizeWriter.Size (sizeWriter.Write ws w b).1
        = ws.wrap (sizeWriter.Size w + (b.length : Int))
    ∧ sizeWriter.Size (ioCopy ws 0 chunks readErr).1 = ws.wrap (chunks.flatten.length : Int)
    ∧ ((chunks.flatten.length : Int) ≤ ws.maxInt →
        sizeWriter.Size (ioCopy ws 0 chunks readErr).1
            = (((chunks.map List.length).sum : Nat) : Int)
        ∧ sizeWriter.Size (ioCopy ws 0 chunks readErr).1 = (chunks.flatten.length : Int))
    ∧ (∀ newRequestErr doErr err events res out,
        RequestWithClient ws newRequestErr events res doErr = some (some out, err) →
        out.BodySize = ws.wrap (res.bodyChunks.flatten.length : Int)
        ∧ ((res.bodyChunks.flatten.length : Int) ≤ ws.maxInt →
            out.BodySize = (res.bodyChunks.flatten.length : Int))) := by
  have hfit : ∀ cs : List (List UInt8), (cs.flatten.length : Int) ≤ ws.maxInt →
      ws.wrap (cs.flatten.length : Int) = (cs.flatten.length : Int) := by
    intro cs h
    exact WordSize.wrap_of_range ws _ (by have := WordSize.half_pos ws; omega) h
  refine ⟨rfl, rfl, ioCopy_size ws chunks readErr, ?_, ?_⟩
  · intro h
    have e : sizeWriter.Size (ioCopy ws 0 chunks readErr).1 = (chunks.flatten.length : Int) := by
      rw [sizeWriter.Size, ioCopy_size, hfit chunks h]
    refine ⟨?_, e⟩
    rw [e, List.length_flatten]
  · intro newRequestErr doErr err events res out h
    have e : out.BodySize = ws.wrap (res.bodyChunks.flatten.length : Int) := by
      unfold response.BodySize
      rw [RequestWithClient_bodySize ws newRequestErr doErr err events res out h, ioCopy_size]
    refine ⟨e, ?_⟩
    intro hle
    rw [e, hfit _ hle]

/-- C16 at the body "hello world": eleven bytes, whether it arrives in one
chunk after a single hop or in three chunks after a redirect, and whether
`int` is 32 or 64 bits wide. -/
theorem C16_sizeWriter_witness :
    ∃ out1 out2,
      RequestWithClient .bits64 .nil singleHopEvents
          { okResponse with bodyChunks := helloOneChunk } .nil = some (some out1, .nil)
      ∧ RequestWithClient .bits32 .nil twoHopEvents
          { okResponse with bodyChunks := helloThreeChunks } .nil = some (some out2, .nil)
      ∧ out1.BodySize = 11 ∧ out2.BodySize = 11 := by
  have h1 : ∃ out1, RequestWithClient .bits64 .nil singleHopEvents
      { okResponse with bodyChunks := helloOneChunk } .nil = some (some out1, .nil) :=
    ⟨_, rfl⟩
  have h2 : ∃ out2, RequestWithClient .bits32 .nil twoHopEvents
      { okResponse with bodyChunks := helloThreeChunks } .nil = some (some out2, .nil) :=
    ⟨_, rfl⟩
  obtain ⟨out1, e1⟩ := h1
  obtain ⟨out2, e2⟩ := h2
  refine ⟨out1, out2, e1, e2, ?_, ?_⟩
  · exact ((C16_sizeWriter .bits64 0 [] [] .nil).2.2.2.2 _ _ _ _ _ _ e1).2 (by decide)
  · exact ((C16_sizeWriter .bits32 0 [] [] .nil).2.2.2.2 _ _ _ _ _ _ e2).2 (by decide)

/-! ## Reads at later instants -/

theorem Time.Sub_mono (a b u : Time) (h : a.ns ≤ b.ns) : a.Sub u ≤ b.Sub u := by
  unfold Time.Sub minDuration maxDuration
  simp only
  split_ifs <;> omega

theorem response_last_of_getLast (r : response) (t : trace)
    (hl : r.traces.getLast? = some (some t)) : r.last = some (some t) := by
  unfold response.last
  exact index_last_of_getLast _ _ hl

/-- C17: for every trace and instants `now1` not after `now2`,
`TimeDownload`, `TimeResponse` and `TimeTotal` at `now1` are at most their
values at `now2`, and each is determined by the one stored timestamp it
subtracts and the supplied instant; the same holds for `TimeDownload`,
`TimeResponse`, `TimeTotal` and `TimeTotalWithRedirects` of a response whose
trace sequence is non-empty, which all return a value. -/
theorem C17_monotone (t : trace) (now1 now2 : Time) (h : now1.ns ≤ now2.ns) :
    t.TimeDownload now1 ≤ t.TimeDownload now2
    ∧ t.TimeResponse now1 ≤ t.TimeResponse now2
    ∧ t.TimeTotal now1 ≤ t.TimeTotal now2
    ∧ (∀ u : trace, u.waitEnd = t.waitEnd → u.TimeDownload now1 = t.TimeDownload now1)
    ∧ (∀ u : trace, u.waitStart = t.waitStart → u.TimeResponse now1 = t.TimeResponse now1)
    ∧ (∀ u : trace, u.start = t.start → u.TimeTotal now1 = t.TimeTotal now1)
    ∧ (∀ (r : response) (first : trace), r.traces.head? = some (some first) →
        r.traces.getLast? = some (some t) →
        ∃ d1 d2 p1 p2 o1 o2 w1 w2,
          r.TimeDownload now1 = some d1 ∧ r.TimeDownload now2 = some d2 ∧ d1 ≤ d2
          ∧ r.TimeResponse now1 = some p1 ∧ r.TimeResponse now2 = some p2 ∧ p1 ≤ p2
          ∧ r.TimeTotal now1 = some o1 ∧ r.TimeTotal now2 = some o2 ∧ o1 ≤ o2
          ∧ r.TimeTotalWithRedirects now1 = some w1
          ∧ r.TimeTotalWithRedirects now2 = some w2 ∧ w1 ≤ w2) := by
  refine ⟨Time.Sub_mono _ _ _ h, Time.Sub_mono _ _ _ h, Time.Sub_mono _ _ _ h, ?_, ?_, ?_, ?_⟩
  · intro u e
    simp [trace.TimeDownload, e]
  · intro u e
    simp [trace.TimeResponse, e]
  · intro u e
    simp [trace.TimeTotal, e]
  · intro r first hf hl
    have hlast := response_last_of_getLast r t hl
    have h0 := index_zero_of_head _ _ hf
    refine ⟨t.TimeDownload now1, t.TimeDownload now2, t.TimeResponse now1,
      t.TimeResponse now2, t.TimeTotal now1, t.TimeTotal now2,
      first.TimeTotal now1, first.TimeTotal now2, ?_, ?_, Time.Sub_mono _ _ _ h,
      ?_, ?_, Time.Sub_mono _ _ _ h, ?_, ?_, Time.Sub_mono _ _ _ h, ?_, ?_,
      Time.Sub_mono _ _ _ h⟩ <;>
    simp [response.TimeDownload, response.TimeResponse, response.TimeTotal,
      response.TimeTotalWithRedirects, hlast, h0]

/-- C17 at the final hop of the chain of three hops, read 150ms and 200ms
after the reference instant. -/
theorem C17_monotone_witness :
    (tlsHop 102).TimeDownload (atMs 150) ≤ (tlsHop 102).TimeDownload (atMs 200)
    ∧ (tlsHop 102).TimeResponse (atMs 150) ≤ (tlsHop 102).TimeResponse (atMs 200)
    ∧ (tlsHop 102).TimeTotal (atMs 150) ≤ (tlsHop 102).TimeTotal (atMs 200)
    ∧ (tlsHop 102).TimeTotal (atMs 150) = 48000000
    ∧ (tlsHop 102).TimeTotal (atMs 200) = 98000000 :=
  ⟨(C17_monotone (tlsHop 102) (atMs 150) (atMs 200) (by decide)).1,
    (C17_monotone (tlsHop 102) (atMs 150) (atMs 200) (by decide)).2.1,
    (C17_monotone (tlsHop 102) (atMs 150) (atMs 200) (by decide)).2.2.1,
    by decide, by decide⟩

/-! ## The snapshot of a response without redirects -/

theorem Stats_of_single (r : response) (t : trace) (clock : Nat → Time)
    (h : r.traces = [some t]) :
    r.Stats clock = some
      { Status := r.status
        Redirects := 0
        TLS := t.tls
        Header := r.header
        HeaderSize := r.headerSize
        BodySize := r.bodySize
        TimeDNS := t.TimeDNS
        TimeConnect := t.TimeConnect
        TimeTLS := t.TimeTLS
        TimeWait := t.TimeWait
        TimeResponse := t.TimeResponse (clock 0)
        TimeDownload := t.TimeDownload (clock 0)
        TimeTotal := t.TimeTotal (clock 0)
        TimeTotalWithRedirects := t.TimeTotal (clock 0)
        TimeRedirects := 0
        Traces := [t.Stats (clock 1)] } := by
  simp [response.Stats, response.Traces, statsOfTraces, response.TLS, response.last,
    response.TimeDNS, response.TimeConnect, response.TimeTLS, response.TimeWait,
    response.TimeResponse, response.TimeDownload, response.TimeTotal,
    response.TimeTotalWithRedirects, response.TimeRedirects, response.Redirects,
    response.Status, response.Header, response.HeaderSize, response.BodySize,
    index, h, trace.TLS]

/-- C18, as the claim states it, fails: the snapshot of a response with a
single trace, taken 60ms after the trace started, has `Redirects` and
`TimeRedirects` zero but `TimeTotalWithRedirects` equal to 60ms, and the key
`time_total_with_redirects` is written. -/
theorem C18_counterexample :
    ∃ st, singleResponse.Stats clockAt60 = some st
      ∧ st.Redirects = 0 ∧ st.TimeRedirects = 0
      ∧ st.TimeTotalWithRedirects = 60000000
      ∧ "time_total_with_redirects" ∈ st.jsonKeys :=
  ⟨_, Stats_of_single singleResponse (plainHop 0) clockAt60 rfl, rfl, rfl, by decide,
    by decide⟩

/-- C18, amended: for every response with exactly one trace the snapshot
exists and has `Redirects` and `TimeRedirects` equal to zero, so the keys
`redirects` and `time_redirects` are left out; its `TimeTotalWithRedirects`
equals its `TimeTotal`, the time from the start of the trace to the instant of
the snapshot, and the key `time_total_with_redirects` is left out only when
that time is zero, that is when the snapshot is taken at the start instant. -/
theorem C18_single_hop_stats (r : response) (t : trace) (clock : Nat → Time)
    (h : r.traces = [some t]) :
    ∃ st, r.Stats clock = some st
      ∧ st.Redirects = 0 ∧ st.TimeRedirects = 0
      ∧ st.TimeTotalWithRedirects = st.TimeTotal
      ∧ st.TimeTotalWithRedirects = (clock 0).Sub t.start
      ∧ "redirects" ∉ st.jsonKeys
      ∧ "time_redirects" ∉ st.jsonKeys
      ∧ ("time_total_with_redirects" ∈ st.jsonKeys ↔ clock 0 ≠ t.start) := by
  refine ⟨_, Stats_of_single r t clock h, rfl, rfl, rfl, rfl, ?_, ?_, ?_⟩
  · simp only [Stats.jsonKeys, List.mem_append, List.mem_cons, List.mem_singleton]
    intro hmem
    rcases hmem with ((((((((hm | hm) | hm) | hm) | hm) | hm) | hm) | hm) | hm) | hm
    all_goals (try split_ifs at hm) <;> simp at hm
  · simp only [Stats.jsonKeys, List.mem_append, List.mem_cons, List.mem_singleton]
    intro hmem
    rcases hmem with ((((((((hm | hm) | hm) | hm) | hm) | hm) | hm) | hm) | hm) | hm
    all_goals (try split_ifs at hm) <;> simp at hm
  · have hz : t.TimeTotal (clock 0) = 0 ↔ clock 0 = t.start := Time.Sub_eq_zero_iff _ _
    simp only [Stats.jsonKeys, List.mem_append, List.mem_cons, List.mem_singleton]
    constructor
    · intro hmem hc
      have hz0 := hz.mpr hc
      rw [if_pos hz0] at hmem
      rcases hmem with ((((((((hm | hm) | hm) | hm) | hm) | hm) | hm) | hm) | hm) | hm
      all_goals (try split_ifs at hm) <;> simp at hm
    · intro hc
      have hz0 : ¬ t.TimeTotal (clock 0) = 0 := fun e => hc (hz.mp e)
      rw [if_neg hz0]
      simp

/-- C18 at the response answered without redirect, read 60ms after its
trace started. -/
theorem C18_single_hop_stats_witness :
    ∃ st, singleResponse.Stats clockAt60 = some st
      ∧ st.Redirects = 0 ∧ st.TimeRedirects = 0
      ∧ st.TimeTotalWithRedirects = st.TimeTotal
      ∧ st.TimeTotalWithRedirects = (clockAt60 0).Sub (plainHop 0).start
      ∧ "redirects" ∉ st.jsonKeys
      ∧ "time_redirects" ∉ st.jsonKeys
      ∧ ("time_total_with_redirects" ∈ st.jsonKeys ↔ clockAt60 0 ≠ (plainHop 0).start) :=
  C18_single_hop_stats singleResponse (plainHop 0) clockAt60 rfl

/-! ## What a connection-acquired event appends -/

theorem fireAll_append (a b : List (Time × Event)) (s : TraceState) :
    fireAll s (a ++ b) = (fireAll s a).bind fun s1 => fireAll s1 b := by
  induction a generalizing s with
  | nil => simp [fireAll]
  | cons p rest ih =>
    obtain ⟨now, e⟩ := p
    simp only [List.cons_append, fireAll]
    cases fire s now e with
    | none => simp
    | some s2 => simp [ih]

theorem store_eq (s s1 : TraceState) (f : trace → trace) (h : s.store f = some s1) :
    ∃ p v, s.t = some p ∧ s.heap[p]? = some v
      ∧ s1 = { s with heap := s.heap.set p (f v) } := by
  unfold TraceState.store at h
  split at h
  · simp at h
  · rename_i p hp
    split at h
    · simp at h
    · rename_i v hv
      simp only [Option.some.injEq] at h
      exact ⟨p, v, hp, hv, h.symm⟩

theorem store_some (s : TraceState) (f : trace → trace) (p : Nat) (v : trace)
    (ht : s.t = some p) (hv : s.heap[p]? = some v) :
    s.store f = some { s with heap := s.heap.set p (f v) } := by
  unfold TraceState.store
  rw [ht]
  simp only
  rw [hv]

theorem store_valid (s s1 : TraceState) (f : trace → trace) (h : s.store f = some s1)
    (hv : s.valid) : s1.valid := by
  obtain ⟨p, v, _, _, e⟩ := store_eq s s1 f h
  rw [e]
  unfold TraceState.valid at hv ⊢
  simpa using hv

theorem alloc_valid (s : TraceState) (v : trace) (hv : s.valid) : (s.alloc v).valid := by
  unfold TraceState.valid at hv ⊢
  unfold TraceState.alloc
  simp only [List.length_append, List.length_singleton]
  refine ⟨?_, ?_⟩
  · intro p hp i e
    have := hv.1 p hp i e
    omega
  · intro i e
    simp only [Option.some.injEq] at e
    omega

theorem fire_valid (s s1 : TraceState) (now : Time) (e : Event)
    (h : fire s now e = some s1) (hv : s.valid) : s1.valid := by
  cases e with
  | GetConn addr =>
    simp only [fire, GetConn, Option.some.injEq] at h
    rw [← h]; exact alloc_valid s _ hv
  | GotConn reused =>
    simp only [fire, GotConn, Option.some.injEq] at h
    rw [← h]
    have hv1 : (if reused = true then s.alloc { trace.empty with start := now } else s).valid := by
      split_ifs
      · exact alloc_valid s _ hv
      · exact hv
    unfold TraceState.valid at hv1 ⊢
    refine ⟨?_, hv1.2⟩
    intro p hp i e
    simp only [List.mem_append, List.mem_singleton] at hp
    rcases hp with hp | hp
    · exact hv1.1 p hp i e
    · exact hv1.2 i (by rw [← hp]; exact e)
  | TLSHandshakeStart =>
    simp only [fire, TLSHandshakeStart] at h
    cases h1 : s.store (fun t => { t with tls := true }) with
    | none => rw [h1] at h; simp at h
    | some s2 =>
      rw [h1] at h
      simp only [Option.some_bind] at h
      exact store_valid _ _ _ h (store_valid _ _ _ h1 hv)
  | DNSStart => exact store_valid _ _ _ h hv
  | DNSDone => exact store_valid _ _ _ h hv
  | ConnectStart => exact store_valid _ _ _ h hv
  | ConnectDone => exact store_valid _ _ _ h hv
  | TLSHandshakeDone => exact store_valid _ _ _ h hv
  | WroteRequest => exact store_valid _ _ _ h hv
  | GotFirstResponseByte => exact store_valid _ _ _ h hv

theorem fireAll_valid (events : List (Time × Event)) (s s1 : TraceState)
    (h : fireAll s events = some s1) (hv : s.valid) : s1.valid := by
  induction events generalizing s with
  | nil =>
    simp only [fireAll, Option.some.injEq] at h
    rw [← h]; exact hv
  | cons p rest ih =>
    obtain ⟨now, e⟩ := p
    simp only [fireAll] at h
    cases h1 : fire s now e with
    | none => rw [h1] at h; simp at h
    | some s2 =>
      rw [h1] at h
      simp only [Option.some_bind] at h
      exact ih s2 h (fire_valid s s2 now e h1 hv)

theorem init_valid : TraceState.init.valid := by
  unfold TraceState.valid TraceState.init
  simp

theorem fire_timing (s : TraceState) (now : Time) (e : Event) (p : Nat) (v : trace)
    (he : e.isTiming = true) (ht : s.t = some p) (hv : s.heap[p]? = some v) :
    ∃ s1, fire s now e = some s1 ∧ s1.t = some p ∧ s1.heap[p]? = some (stamp v now e)
      ∧ s1.traces = s.traces := by
  have hlt : p < s.heap.length := by
    rcases List.getElem?_eq_some.mp hv with ⟨h, _⟩
    exact h
  have one : ∀ f : trace → trace,
      ∃ s1, s.store f = some s1 ∧ s1.t = some p ∧ s1.heap[p]? = some (f v)
        ∧ s1.traces = s.traces := by
    intro f
    refine ⟨_, store_some s f p v ht hv, ht, ?_, rfl⟩
    simp [List.getElem?_set, hlt]
  cases e with
  | GetConn addr => simp [Event.isTiming] at he
  | GotConn reused => simp [Event.isTiming] at he
  | TLSHandshakeStart =>
    obtain ⟨s2, h2, t2, v2, tr2⟩ := one (fun t => { t with tls := true })
    have hlt2 : p < s2.heap.length := by
      rcases List.getElem?_eq_some.mp v2 with ⟨h, _⟩
      exact h
    refine ⟨{ s2 with heap := (s2.heap.set p { v with tls := true, tlsStart := now }) },
      ?_, t2, ?_, tr2⟩
    · simp only [fire, TLSHandshakeStart, h2, Option.some_bind]
      exact store_some s2 _ p _ t2 v2
    · simp [List.getElem?_set, hlt2, stamp]
  | DNSStart => exact one _
  | DNSDone => exact one _
  | ConnectStart => exact one _
  | ConnectDone => exact one _
  | TLSHandshakeDone => exact one _
  | WroteRequest => exact one _
  | GotFirstResponseByte => exact one _

theorem fireAll_timing (mid : List (Time × Event)) (s : TraceState) (p : Nat) (v : trace)
    (hm : ∀ e ∈ mid, e.2.isTiming = true) (ht : s.t = some p) (hv : s.heap[p]? = some v) :
    ∃ s1, fireAll s mid = some s1 ∧ s1.t = some p
      ∧ s1.heap[p]? = some (stampAll v mid) ∧ s1.traces = s.traces := by
  induction mid generalizing s v with
  | nil => exact ⟨s, rfl, ht, hv, rfl⟩
  | cons q rest ih =>
    obtain ⟨now, e⟩ := q
    obtain ⟨s2, h2, t2, v2, tr2⟩ :=
      fire_timing s now e p v (hm (now, e) (by simp)) ht hv
    obtain ⟨s3, h3, t3, v3, tr3⟩ :=
      ih s2 (stamp v now e) (fun x hx => hm x (by simp [hx])) t2 v2
    refine ⟨s3, ?_, t3, ?_, by rw [tr3, tr2]⟩
    · simp only [fireAll, h2, Option.some_bind]
      exact h3
    · simpa [stampAll] using v3

theorem stampAll_start_addr (mid : List (Time × Event)) (v : trace) :
    (stampAll v mid).start = v.start ∧ (stampAll v mid).addr = v.addr := by
  induction mid generalizing v with
  | nil => exact ⟨rfl, rfl⟩
  | cons q rest ih =>
    obtain ⟨now, e⟩ := q
    have h := ih (stamp v now e)
    have hs : (stamp v now e).start = v.start ∧ (stamp v now e).addr = v.addr := by
      cases e <;> exact ⟨rfl, rfl⟩
    simp only [stampAll, List.foldl_cons] at h ⊢
    rw [h.1, h.2]
    exact hs

theorem view_append_pointer (s : TraceState) (p : Option Nat) :
    TraceState.view { s with traces := s.traces ++ [p] }
      = s.view ++ [p.bind fun i => s.heap[i]?] := by
  simp [TraceState.view]

theorem view_alloc (s : TraceState) (v : trace) (hv : s.valid) :
    (s.alloc v).view = s.view := by
  unfold TraceState.view TraceState.alloc
  simp only
  apply List.map_congr_left
  intro p hp
  cases p with
  | none => rfl
  | some i =>
    have hlt := hv.1 (some i) hp i rfl
    simp only [Option.some_bind]
    exact List.getElem?_append_left hlt

/-- C19: in every state the hooks can reach, a connection-acquired event
runs and makes the trace sequence one element longer. For a reused connection
the appended element is a fresh recorder
whose start is the time of the event, whose `TimeDNS`, `TimeConnect` and
`TimeTLS` are zero and whose TLS flag is false, whatever was recorded before.
For a freshly dialed connection, when the events so far end with a
connection-acquisition-requested event for `addr` at time `g` followed by
timing events `mid`, it is the recorder created by that event: start `g`,
address `addr`, and the timestamps and TLS flag recorded by `mid`. -/
theorem C19_GotConn_appends (pre : List (Time × Event)) (s : TraceState) (now : Time)
    (hpre : fireAll TraceState.init pre = some s) :
    (∀ reused, ∃ s1, GotConn s reused now = some s1 ∧ s1.view.length = s.view.length + 1)
    ∧ (∃ s1, GotConn s true now = some s1
      ∧ s1.view = s.view ++ [some { trace.empty with start := now }]
      ∧ ({ trace.empty with start := now } : trace).TimeDNS = 0
      ∧ ({ trace.empty with start := now } : trace).TimeConnect = 0
      ∧ ({ trace.empty with start := now } : trace).TimeTLS = 0
      ∧ ({ trace.empty with start := now } : trace).TLS = false)
    ∧ (∀ pre0 g addr mid, pre = pre0 ++ (g, Event.GetConn addr) :: mid →
        (∀ e ∈ mid, e.2.isTiming = true) →
        ∃ s1, GotConn s false now = some s1
          ∧ s1.view
              = s.view ++ [some (stampAll { trace.empty with start := g, addr := addr } mid)]
          ∧ (stampAll { trace.empty with start := g, addr := addr } mid).start = g
          ∧ (stampAll { trace.empty with start := g, addr := addr } mid).addr = addr) := by
  have hvalid : s.valid := fireAll_valid pre _ s hpre init_valid
  refine ⟨?_, ?_, ?_⟩
  · intro reused
    refine ⟨_, rfl, ?_⟩
    cases reused <;> simp [TraceState.view, TraceState.alloc]
  · refine ⟨_, rfl, ?_, (Time.Sub_eq_zero_iff _ _).mpr rfl, (Time.Sub_eq_zero_iff _ _).mpr rfl,
      (Time.Sub_eq_zero_iff _ _).mpr rfl, rfl⟩
    simp only [if_true]
    rw [view_append_pointer, view_alloc s _ hvalid]
    simp [TraceState.alloc]
  · intro pre0 g addr mid e hm
    rw [e, fireAll_append] at hpre
    cases h0 : fireAll TraceState.init pre0 with
    | none => rw [h0] at hpre; simp at hpre
    | some s0 =>
      rw [h0] at hpre
      simp only [Option.some_bind, fireAll, fire, GetConn] at hpre
      obtain ⟨s2, h2, t2, v2, _⟩ :=
        fireAll_timing mid (s0.alloc { trace.empty with start := g, addr := addr })
          s0.heap.length { trace.empty with start := g, addr := addr } hm rfl
          (by simp [TraceState.alloc])
      rw [h2] at hpre
      simp only [Option.some.injEq] at hpre
      rw [hpre] at t2 v2
      have hs := stampAll_start_addr mid { trace.empty with start := g, addr := addr }
      refine ⟨_, rfl, ?_, hs.1, hs.2⟩
      simp only [Bool.false_eq_true, if_false]
      rw [view_append_pointer, t2]
      simp [v2]

/-- C19 at an HTTPS dial: after the hooks of the dial the recorder handed
over by a connection-acquired event carries the start and address of the
request for the connection and the recorded DNS, connect and TLS timestamps;
had the connection been reused instead, a blank recorder started at the time
of the event would have been appended. -/
theorem C19_GotConn_appends_witness :
    ∃ s, fireAll TraceState.init dialEvents = some s
      ∧ (∃ s1, GotConn s false (atMs 10) = some s1
          ∧ s1.view = s.view ++ [some
              { trace.empty with
                addr := "example.com:443", tls := true, start := atMs 0,
                dnsStart := atMs 1, dnsEnd := atMs 2, tcpStart := atMs 3, tcpEnd := atMs 4,
                tlsStart := atMs 5, tlsEnd := atMs 9 }])
      ∧ (∃ s1, GotConn s true (atMs 10) = some s1
          ∧ s1.view = s.view ++ [some { trace.empty with start := atMs 10 }]) := by
  have hs : ∃ s, fireAll TraceState.init dialEvents = some s := ⟨_, rfl⟩
  obtain ⟨s, hs⟩ := hs
  have h := C19_GotConn_appends dialEvents s (atMs 10) hs
  refine ⟨s, hs, ?_, ?_⟩
  · obtain ⟨s1, h1, h2, _⟩ := h.2.2 [] (atMs 0) "example.com:443" dialEvents.tail rfl
      (by decide)
    exact ⟨s1, h1, h2⟩
  · obtain ⟨s1, h1, h2, _⟩ := h.2.1
    exact ⟨s1, h1, h2⟩

/-! ## Chronological order of the hops -/

theorem startAt_lt (s : TraceState) (i : Nat) (a : Int) (h : s.startAt i = some a) :
    i < s.heap.length := by
  unfold TraceState.startAt at h
  cases hv : s.heap[i]? with
  | none => rw [hv] at h; simp at h
  | some v =>
    rcases List.getElem?_eq_some.mp hv with ⟨hlt, _⟩
    exact hlt

theorem startAt_alloc_old (s : TraceState) (v : trace) (i : Nat) (h : i < s.heap.length) :
    (s.alloc v).startAt i = s.startAt i := by
  unfold TraceState.startAt TraceState.alloc
  simp only
  rw [List.getElem?_append_left h]

theorem startAt_alloc_new (s : TraceState) (v : trace) :
    (s.alloc v).startAt s.heap.length = some v.start.ns := by
  unfold TraceState.startAt TraceState.alloc
  simp

theorem startAt_alloc_cases (s : TraceState) (v : trace) (i : Nat) (a : Int)
    (h : (s.alloc v).startAt i = some a) :
    (i < s.heap.length ∧ s.startAt i = some a) ∨ (i = s.heap.length ∧ a = v.start.ns) := by
  have hlt := startAt_lt _ _ _ h
  simp only [TraceState.alloc, List.length_append, List.length_singleton] at hlt
  by_cases hi : i < s.heap.length
  · left
    rw [startAt_alloc_old s v i hi] at h
    exact ⟨hi, h⟩
  · right
    have e : i = s.heap.length := by omega
    rw [e, startAt_alloc_new] at h
    simp only [Option.some.injEq] at h
    exact ⟨e, h.symm⟩

theorem ordered_alloc (s : TraceState) (T : Int) (v : trace) (h : s.ordered T)
    (hT : T ≤ v.start.ns) : (s.alloc v).chrono v.start.ns := by
  obtain ⟨k2, k3, k4, k5⟩ := h
  refine ⟨⟨s.heap.length, by simp [TraceState.alloc], rfl⟩, ?_, ?_, ?_, ?_⟩
  · intro i a h
    rcases startAt_alloc_cases s v i a h with ⟨_, h1⟩ | ⟨_, h1⟩
    · have := k2 i a h1
      omega
    · omega
  · intro i j a b hij hi hj
    rcases startAt_alloc_cases s v i a hi with ⟨hi1, hi2⟩ | ⟨hi1, hi2⟩
    · rcases startAt_alloc_cases s v j b hj with ⟨_, hj2⟩ | ⟨_, hj2⟩
      · exact k3 i j a b hij hi2 hj2
      · have := k2 i a hi2
        omega
    · rcases startAt_alloc_cases s v j b hj with ⟨hj1, _⟩ | ⟨_, hj2⟩
      · omega
      · omega
  · intro k p hk
    obtain ⟨i, e, hlt⟩ := k4 k p hk
    refine ⟨i, e, ?_⟩
    simp only [TraceState.alloc, List.length_append, List.length_singleton]
    omega
  · exact k5

theorem chrono_append (s : TraceState) (T : Int) (h : s.chrono T) :
    TraceState.chrono { s with traces := s.traces ++ [s.t] } T := by
  obtain ⟨⟨n, hn, ht⟩, k2, k3, k4, k5⟩ := h
  have hcase : ∀ k p, (s.traces ++ [s.t])[k]? = some p →
      (k < s.traces.length ∧ s.traces[k]? = some p) ∨ (k = s.traces.length ∧ p = some n) := by
    intro k p hk
    by_cases hlt : k < s.traces.length
    · left
      rw [List.getElem?_append_left hlt] at hk
      exact ⟨hlt, hk⟩
    · right
      have hk2 : k < (s.traces ++ [s.t]).length := by
        rcases List.getElem?_eq_some.mp hk with ⟨h, _⟩
        exact h
      simp only [List.length_append, List.length_singleton] at hk2
      have e : k = s.traces.length := by omega
      rw [e, List.getElem?_concat_length, ht] at hk
      simp only [Option.some.injEq] at hk
      exact ⟨e, hk.symm⟩
  refine ⟨⟨n, hn, ht⟩, k2, k3, ?_, ?_⟩
  · intro k p hk
    rcases hcase k p hk with ⟨_, h1⟩ | ⟨_, h1⟩
    · exact k4 k p h1
    · exact ⟨n, h1, by simp only; omega⟩
  · intro k l i j hkl hk hl
    rcases hcase k _ hk with ⟨hk1, hk2⟩ | ⟨hk1, hk2⟩
    · rcases hcase l _ hl with ⟨_, hl2⟩ | ⟨_, hl2⟩
      · exact k5 k l i j hkl hk2 hl2
      · obtain ⟨i2, e, hlt⟩ := k4 k _ hk2
        simp only [Option.some.injEq] at e hl2
        omega
    · rcases hcase l _ hl with ⟨hl1, _⟩ | ⟨_, hl2⟩
      · omega
      · simp only [Option.some.injEq] at hk2 hl2
        omega

theorem chrono_store (s s1 : TraceState) (T : Int) (f : trace → trace)
    (h : s.chrono T) (hs : s.store f = some s1) (hf : ∀ v : trace, (f v).start = v.start) :
    s1.chrono T := by
  obtain ⟨p, v, hp, hv, e⟩ := store_eq s s1 f hs
  have hst : ∀ i, s1.startAt i = s.startAt i := by
    intro i
    rw [e]
    unfold TraceState.startAt
    simp only [List.getElem?_set]
    by_cases hpi : p = i
    · subst hpi
      have hlt : p < s.heap.length := by
        rcases List.getElem?_eq_some.mp hv with ⟨h, _⟩
        exact h
      simp [hlt, hv, hf]
    · simp [hpi]
  have hlen : s1.heap.length = s.heap.length := by rw [e]; simp
  have htr : s1.traces = s.traces := by rw [e]
  have ht : s1.t = s.t := by rw [e]
  obtain ⟨k1, k2, k3, k4, k5⟩ := h
  refine ⟨?_, ?_, ?_, ?_, ?_⟩
  · rw [hlen, ht]; exact k1
  · intro i a; rw [hst]; exact k2 i a
  · intro i j a b; rw [hst, hst]; exact k3 i j a b
  · rw [htr, hlen]; exact k4
  · rw [htr]; exact k5

theorem chrono_mono (s : TraceState) (T T1 : Int) (h : s.chrono T) (hT : T ≤ T1) :
    s.chrono T1 := by
  obtain ⟨k1, k2, k3, k4, k5⟩ := h
  refine ⟨k1, ?_, k3, k4, k5⟩
  intro i a hi
  have := k2 i a hi
  omega

theorem chrono_store_some (s : TraceState) (T : Int) (f : trace → trace) (h : s.chrono T) :
    ∃ s1, s.store f = some s1 := by
  obtain ⟨⟨n, hn, ht⟩, _⟩ := h
  have hlt : n < s.heap.length := by omega
  exact ⟨_, store_some s f n s.heap[n] ht (List.getElem?_eq_getElem hlt)⟩

theorem fire_chrono (s : TraceState) (T : Int) (now : Time) (e : Event)
    (h : s.chrono T) (hT : T ≤ now.ns) :
    ∃ s1, fire s now e = some s1 ∧ s1.chrono now.ns := by
  have hnow := chrono_mono s T now.ns h hT
  have one : ∀ f : trace → trace, (∀ v : trace, (f v).start = v.start) →
      ∃ s1, s.store f = some s1 ∧ s1.chrono now.ns := by
    intro f hf
    obtain ⟨s1, h1⟩ := chrono_store_some s T f h
    exact ⟨s1, h1, chrono_store s s1 now.ns f hnow h1 hf⟩
  cases e with
  | GetConn addr =>
    exact ⟨_, rfl, ordered_alloc s T { trace.empty with start := now, addr := addr } h.2 hT⟩
  | GotConn reused =>
    cases reused with
    | false =>
      refine ⟨_, rfl, ?_⟩
      simp only [Bool.false_eq_true, if_false]
      exact chrono_append s now.ns hnow
    | true =>
      refine ⟨_, rfl, ?_⟩
      simp only [if_true]
      exact chrono_append _ now.ns
        (ordered_alloc s T { trace.empty with start := now } h.2 hT)
  | TLSHandshakeStart =>
    obtain ⟨s2, h2, c2⟩ := one (fun t => { t with tls := true }) (fun _ => rfl)
    obtain ⟨s3, h3⟩ := chrono_store_some s2 now.ns (fun t => { t with tlsStart := now }) c2
    refine ⟨s3, ?_, chrono_store s2 s3 now.ns _ c2 h3 (fun _ => rfl)⟩
    simp only [fire, TLSHandshakeStart, h2, Option.some_bind]
    exact h3
  | DNSStart => exact one _ (fun _ => rfl)
  | DNSDone => exact one _ (fun _ => rfl)
  | ConnectStart => exact one _ (fun _ => rfl)
  | ConnectDone => exact one _ (fun _ => rfl)
  | TLSHandshakeDone => exact one _ (fun _ => rfl)
  | WroteRequest => exact one _ (fun _ => rfl)
  | GotFirstResponseByte => exact one _ (fun _ => rfl)

theorem fireAll_chrono (events : List (Time × Event)) (s : TraceState) (T : Int)
    (h : s.chrono T) (hfirst : ∀ e ∈ events, T ≤ e.1.ns)
    (hclock : List.Pairwise (fun a b : Time × Event => a.1.ns ≤ b.1.ns) events) :
    ∃ s1 T1, fireAll s events = some s1 ∧ s1.chrono T1 := by
  induction events generalizing s T with
  | nil => exact ⟨s, T, rfl, h⟩
  | cons q rest ih =>
    obtain ⟨now, e⟩ := q
    obtain ⟨s2, h2, c2⟩ := fire_chrono s T now e h (hfirst (now, e) (by simp))
    rw [List.pairwise_cons] at hclock
    obtain ⟨s3, T3, h3, c3⟩ := ih s2 now.ns c2 (fun x hx => hclock.1 x hx) hclock.2
    refine ⟨s3, T3, ?_, c3⟩
    simp only [fireAll, h2, Option.some_bind]
    exact h3

theorem init_ordered (T : Int) : TraceState.init.ordered T := by
  unfold TraceState.ordered TraceState.startAt TraceState.init
  simp

theorem chrono_view (s : TraceState) (T : Int) (h : s.chrono T) (i j : Nat) (a b : Trace)
    (hij : i ≤ j) (ha : s.view[i]? = some a) (hb : s.view[j]? = some b) :
    ∃ x y, a = some x ∧ b = some y ∧ x.start.ns ≤ y.start.ns := by
  obtain ⟨_, _, k3, k4, k5⟩ := h
  have entry : ∀ (k : Nat) (c : Trace), s.view[k]? = some c →
      ∃ (idx : Nat) (v : trace),
        s.traces[k]? = some (some idx) ∧ s.heap[idx]? = some v ∧ c = some v := by
    intro k c hk
    unfold TraceState.view at hk
    rw [List.getElem?_map] at hk
    cases hp : s.traces[k]? with
    | none => rw [hp] at hk; simp at hk
    | some p =>
      obtain ⟨idx, e, hlt⟩ := k4 k p hp
      rw [hp, e] at hk
      simp only [Option.map_some', Option.some_bind, Option.some.injEq] at hk
      rw [List.getElem?_eq_getElem hlt] at hk
      exact ⟨idx, s.heap[idx], by rw [e], List.getElem?_eq_getElem hlt, hk.symm⟩
  obtain ⟨ia, x, hta, hxa, ea⟩ := entry i a ha
  obtain ⟨ib, y, htb, hyb, eb⟩ := entry j b hb
  refine ⟨x, y, ea, eb, ?_⟩
  have hle := k5 i j ia ib hij hta htb
  exact k3 ia ib x.start.ns y.start.ns hle
    (by simp [TraceState.startAt, hxa]) (by simp [TraceState.startAt, hyb])

theorem TimeRedirects_of_sorted (r : response)
    (h : ∀ (i j : Nat) (a b : Trace), i ≤ j → r.traces[i]? = some a →
      r.traces[j]? = some b → ∃ x y, a = some x ∧ b = some y ∧ x.start.ns ≤ y.start.ns) :
    (r.traces ≠ [] → ∃ d, r.TimeRedirects = some d ∧ 0 ≤ d)
    ∧ (∀ d, r.TimeRedirects = some d → 0 ≤ d) := by
  have ne : r.traces ≠ [] → ∃ d, r.TimeRedirects = some d ∧ 0 ≤ d := by
    intro hne
    have hpos : 0 < r.traces.length := List.length_pos.mpr hne
    have h0 : r.traces[0]? = some r.traces[0] := List.getElem?_eq_getElem hpos
    have hl : r.traces[r.traces.length - 1]? = some r.traces[r.traces.length - 1] :=
      List.getElem?_eq_getElem (by omega)
    obtain ⟨x, y, ex, ey, hxy⟩ := h 0 (r.traces.length - 1) _ _ (by omega) h0 hl
    have hf : r.traces.head? = some (some x) := by
      rw [List.head?_eq_getElem?, h0, ex]
    have hg : r.traces.getLast? = some (some y) := by
      rw [List.getLast?_eq_getElem?, hl, ey]
    refine ⟨_, TimeRedirects_eq_of_ends r x y hf hg, ?_⟩
    exact (Time.Sub_nonneg_iff _ _).mpr hxy
  refine ⟨ne, ?_⟩
  intro d hd
  by_cases hne : r.traces = []
  · simp [response.TimeRedirects, hne, index] at hd
  · obtain ⟨d2, h2, hpos⟩ := ne hne
    rw [h2] at hd
    simp only [Option.some.injEq] at hd
    omega

/-- C20: for every run of hooks that begins with the request for a
connection and is stamped by a clock that never goes back, every hook runs and
in the resulting trace sequence every element is a recorder and the start
instants do not decrease from one index to any later one; so `TimeRedirects`
of a response with that sequence is never negative, and it returns a value as
soon as one connection was acquired. -/
theorem C20_chronological (addr : String) (t0 : Time) (rest : List (Time × Event))
    (hclock : List.Pairwise (fun a b : Time × Event => a.1.ns ≤ b.1.ns)
      ((t0, Event.GetConn addr) :: rest)) :
    ∃ s, fireAll TraceState.init ((t0, Event.GetConn addr) :: rest) = some s
      ∧ (∀ (i j : Nat) (a b : Trace), i ≤ j → s.view[i]? = some a → s.view[j]? = some b →
          ∃ x y, a = some x ∧ b = some y ∧ x.start.ns ≤ y.start.ns)
      ∧ (∀ r : response, r.traces = s.view → ∀ d, r.TimeRedirects = some d → 0 ≤ d)
      ∧ (∀ r : response, r.traces = s.view → 0 < countGotConn rest →
          ∃ d, r.TimeRedirects = some d ∧ 0 ≤ d) := by
  rw [List.pairwise_cons] at hclock
  have c0 : (TraceState.init.alloc { trace.empty with start := t0, addr := addr }).chrono t0.ns :=
    ordered_alloc TraceState.init t0.ns _ (init_ordered t0.ns) (le_refl _)
  obtain ⟨s, T, hs, cs⟩ := fireAll_chrono rest _ t0.ns c0 (fun x hx => hclock.1 x hx) hclock.2
  have hrun : fireAll TraceState.init ((t0, Event.GetConn addr) :: rest) = some s := by
    simp only [fireAll, fire, GetConn, Option.some_bind]
    exact hs
  have hsorted := chrono_view s T cs
  refine ⟨s, hrun, hsorted, ?_, ?_⟩
  · intro r hr d hd
    exact (TimeRedirects_of_sorted r (by rw [hr]; exact hsorted)).2 d hd
  · intro r hr hpos
    apply (TimeRedirects_of_sorted r (by rw [hr]; exact hsorted)).1
    have hlen := fireAll_traces_length _ _ s hrun
    intro hnil
    have hv : s.view.length = s.traces.length := by simp [TraceState.view]
    rw [hr] at hnil
    rw [hnil] at hv
    have hc : countGotConn ((t0, Event.GetConn addr) :: rest) = countGotConn rest := by
      simp [countGotConn, Event.isGotConn]
    rw [hc] at hlen
    simp only [TraceState.init, List.length_nil] at hlen hv
    omega

/-- C20 at a request answered after one redirect over a reused connection:
the two hops started 0ms and 51ms after the reference instant and the
redirect time is 51ms. -/
theorem C20_chronological_witness :
    ∃ s, fireAll TraceState.init reuseEvents = some s
      ∧ (∀ (i j : Nat) (a b : Trace), i ≤ j → s.view[i]? = some a → s.view[j]? = some b →
          ∃ x y, a = some x ∧ b = some y ∧ x.start.ns ≤ y.start.ns)
      ∧ (∀ r : response, r.traces = s.view → ∃ d, r.TimeRedirects = some d ∧ 0 ≤ d) := by
  obtain ⟨s, hs, hsorted, _, hred⟩ :=
    C20_chronological "example.com:80" (atMs 0) reuseEvents.tail (by decide)
  exact ⟨s, hs, hsorted, fun r hr => hred r hr (by decide)⟩

/-! ## Normalizing twice -/

theorem normalizeError_of_not_url (e : Error) (h : e.isUrlError = false) :
    normalizeError e = some e := by
  cases e <;> first | rfl | (simp [Error.isUrlError] at h)

theorem certError_not_url (reason : Int) (text : String) :
    (certError reason text).isUrlError = false := by
  unfold certError
  split_ifs <;> rfl

theorem syscallError_not_url (sc : String) (e : Error) :
    (syscallError sc e).isUrlError = false := by
  unfold syscallError
  cases e <;> rfl

theorem opError_not_url (op net : String) (source addr : Option String) (e : Error) :
    (opError op net source addr e).isUrlError = false := by
  unfold opError
  cases e <;> first | rfl | exact syscallError_not_url _ _

theorem urlError_not_url (op url : String) (cause r : Error)
    (h : urlError op url cause = some r) : r.isUrlError = false := by
  by_cases ht : UrlError.Timeout cause = true
  · simp only [urlError, ht, if_true, Option.some.injEq] at h
    rw [← h]; rfl
  · have ht2 : UrlError.Timeout cause = false := by simpa using ht
    by_cases hs : cause.shapeStep = true
    · unfold urlError at h
      rw [if_neg ht] at h
      cases cause <;> simp [Error.shapeStep] at hs <;>
        simp only [Option.some.injEq] at h <;> rw [← h]
      · rfl
      · rfl
      · exact opError_not_url _ _ _ _ _
      · rfl
      · rfl
      · rfl
      · exact certError_not_url _ _
    · have hs2 : cause.shapeStep = false := by simpa using hs
      rw [urlError_text_steps op url cause ht2 hs2] at h
      split_ifs at h
      · simp only [Option.some.injEq] at h
        rw [← h]; rfl
      · cases hm : cause.Error with
        | none => rw [hm] at h; simp at h
        | some m =>
          rw [hm] at h
          simp only [Option.map_some', Option.some.injEq] at h
          rw [← h]; rfl

theorem normalizeError_not_url (e r : Error) (h : normalizeError e = some r) :
    r.isUrlError = false := by
  cases hu : e.isUrlError with
  | false =>
    rw [normalizeError_of_not_url e hu] at h
    simp only [Option.some.injEq] at h
    rw [← h]; exact hu
  | true =>
    cases e <;> simp [Error.isUrlError] at hu
    exact urlError_not_url _ _ _ r h

/-- C22: `normalizeError` is idempotent. Whatever it returns is not a
URL-level error, so normalizing the result again returns it unchanged, and
normalizing twice is the same as normalizing once, also on the inputs on which
the normalizer does not return. -/
theorem C22_idempotent (e : Error) :
    (normalizeError e).bind normalizeError = normalizeError e
    ∧ (∀ r, normalizeError e = some r → r.isUrlError = false ∧ normalizeError r = some r) := by
  have h2 : ∀ r, normalizeError e = some r →
      r.isUrlError = false ∧ normalizeError r = some r := by
    intro r h
    have hr := normalizeError_not_url e r h
    exact ⟨hr, normalizeError_of_not_url r hr⟩
  refine ⟨?_, h2⟩
  cases h : normalizeError e with
  | none => rfl
  | some r =>
    simp only [Option.some_bind]
    exact (h2 r h).2

/-- C22 at a refused dial: the normalizer turns the URL-level error into the
errno, and the errno is returned as it is. -/
theorem C22_idempotent_witness :
    normalizeError refusedError = some (.Errno ECONNREFUSED)
    ∧ (Error.Errno ECONNREFUSED).isUrlError = false
    ∧ normalizeError (.Errno ECONNREFUSED) = some (.Errno ECONNREFUSED) :=
  ⟨by decide, (C22_idempotent refusedError).2 (.Errno ECONNREFUSED) (by decide)⟩

/-! ## No absent recorder -/

theorem alive_alloc (s : TraceState) (v : trace)
    (h : ∀ (k : Nat) (p : Option Nat), s.traces[k]? = some p →
      ∃ i, p = some i ∧ i < s.heap.length) : (s.alloc v).alive := by
  refine ⟨⟨s.heap.length, by simp [TraceState.alloc], rfl⟩, ?_⟩
  intro k p hk
  obtain ⟨i, e, hlt⟩ := h k p hk
  refine ⟨i, e, ?_⟩
  simp only [TraceState.alloc, List.length_append, List.length_singleton]
  omega

theorem alive_append (s : TraceState) (h : s.alive) :
    TraceState.alive { s with traces := s.traces ++ [s.t] } := by
  obtain ⟨⟨n, hn, ht⟩, k4⟩ := h
  refine ⟨⟨n, hn, ht⟩, ?_⟩
  intro k p hk
  by_cases hlt : k < s.traces.length
  · rw [List.getElem?_append_left hlt] at hk
    exact k4 k p hk
  · have hk2 : k < (s.traces ++ [s.t]).length := by
      rcases List.getElem?_eq_some.mp hk with ⟨h, _⟩
      exact h
    simp only [List.length_append, List.length_singleton] at hk2
    have e : k = s.traces.length := by omega
    rw [e, List.getElem?_concat_length, ht] at hk
    simp only [Option.some.injEq] at hk
    exact ⟨n, hk.symm, by simp only; omega⟩

theorem alive_store (s : TraceState) (f : trace → trace) (h : s.alive) :
    ∃ s1, s.store f = some s1 ∧ s1.alive := by
  obtain ⟨⟨n, hn, ht⟩, k4⟩ := h
  have hlt : n < s.heap.length := by omega
  refine ⟨_, store_some s f n s.heap[n] ht (List.getElem?_eq_getElem hlt), ?_⟩
  refine ⟨⟨n, by simp [hn], ht⟩, ?_⟩
  intro k p hk
  obtain ⟨i, e, hi⟩ := k4 k p hk
  exact ⟨i, e, by simpa using hi⟩

theorem fire_alive (s : TraceState) (now : Time) (e : Event) (h : s.alive) :
    ∃ s1, fire s now e = some s1 ∧ s1.alive := by
  cases e with
  | GetConn addr => exact ⟨_, rfl, alive_alloc s _ h.2⟩
  | GotConn reused =>
    cases reused with
    | false =>
      refine ⟨_, rfl, ?_⟩
      simp only [Bool.false_eq_true, if_false]
      exact alive_append s h
    | true =>
      refine ⟨_, rfl, ?_⟩
      simp only [if_true]
      exact alive_append _ (alive_alloc s _ h.2)
  | TLSHandshakeStart =>
    obtain ⟨s2, h2, a2⟩ := alive_store s (fun t => { t with tls := true }) h
    obtain ⟨s3, h3, a3⟩ := alive_store s2 (fun t => { t with tlsStart := now }) a2
    refine ⟨s3, ?_, a3⟩
    simp only [fire, TLSHandshakeStart, h2, Option.some_bind]
    exact h3
  | DNSStart => exact alive_store s _ h
  | DNSDone => exact alive_store s _ h
  | ConnectStart => exact alive_store s _ h
  | ConnectDone => exact alive_store s _ h
  | TLSHandshakeDone => exact alive_store s _ h
  | WroteRequest => exact alive_store s _ h
  | GotFirstResponseByte => exact alive_store s _ h

theorem fireAll_alive (events : List (Time × Event)) (s : TraceState) (h : s.alive) :
    ∃ s1, fireAll s events = some s1 ∧ s1.alive := by
  induction events generalizing s with
  | nil => exact ⟨s, rfl, h⟩
  | cons q rest ih =>
    obtain ⟨now, e⟩ := q
    obtain ⟨s2, h2, a2⟩ := fire_alive s now e h
    obtain ⟨s3, h3, a3⟩ := ih s2 a2
    refine ⟨s3, ?_, a3⟩
    simp only [fireAll, h2, Option.some_bind]
    exact h3

theorem alive_view (s : TraceState) (h : s.alive) (k : Nat) (a : Trace)
    (hk : s.view[k]? = some a) : ∃ x : trace, a = some x := by
  unfold TraceState.view at hk
  rw [List.getElem?_map] at hk
  cases hp : s.traces[k]? with
  | none => rw [hp] at hk; simp at hk
  | some p =>
    obtain ⟨idx, e, hlt⟩ := h.2 k p hp
    rw [hp, e] at hk
    simp only [Option.map_some', Option.some_bind, Option.some.injEq] at hk
    rw [List.getElem?_eq_getElem hlt] at hk
    exact ⟨s.heap[idx], hk.symm⟩

theorem accessors_of_ends (r : response) (first last : trace) (now : Time)
    (hf : r.traces.head? = some (some first))
    (hl : r.traces.getLast? = some (some last)) :
    r.TLS = some last.TLS
    ∧ r.TimeDNS = some last.TimeDNS
    ∧ r.TimeConnect = some last.TimeConnect
    ∧ r.TimeTLS = some last.TimeTLS
    ∧ r.TimeWait = some last.TimeWait
    ∧ r.TimeDownload now = some (last.TimeDownload now)
    ∧ r.TimeResponse now = some (last.TimeResponse now)
    ∧ r.TimeTotal now = some (last.TimeTotal now)
    ∧ r.TimeTotalWithRedirects now = some (first.TimeTotal now)
    ∧ r.TimeRedirects = some (last.Start.Sub first.Start) := by
  have hlast := response_last_of_getLast r last hl
  have h0 := index_zero_of_head _ _ hf
  refine ⟨?_, ?_, ?_, ?_, ?_, ?_, ?_, ?_, ?_, TimeRedirects_eq_of_ends r first last hf hl⟩ <;>
    simp [response.TLS, response.TimeDNS, response.TimeConnect, response.TimeTLS,
      response.TimeWait, response.TimeDownload, response.TimeResponse, response.TimeTotal,
      response.TimeTotalWithRedirects, hlast, h0]

/-- C23: for every run of hooks whose first event is the request for a
connection, every hook runs (none stores through a nil recorder), the captured
recorder is never nil afterwards, and every element of the trace sequence is a
recorder, one for each connection-acquired event; so once a connection was
acquired the sequence has a first and a last trace and `TLS`, `TimeDNS`,
`TimeConnect`, `TimeTLS`, `TimeWait`, `TimeDownload`, `TimeResponse`,
`TimeTotal`, `TimeTotalWithRedirects` and `TimeRedirects` of a response with
that sequence all return a value. -/
theorem C23_no_absent_recorder (addr : String) (t0 : Time) (rest : List (Time × Event)) :
    ∃ s, fireAll TraceState.init ((t0, Event.GetConn addr) :: rest) = some s
      ∧ (∃ n, s.t = some n ∧ n < s.heap.length)
      ∧ (∀ a ∈ s.view, ∃ x : trace, a = some x)
      ∧ s.view.length = countGotConn rest
      ∧ (0 < countGotConn rest → ∀ r : response, r.traces = s.view → ∀ now : Time,
          ∃ first last : trace,
            r.traces.head? = some (some first) ∧ r.traces.getLast? = some (some last)
            ∧ r.TLS = some last.TLS
            ∧ r.TimeDNS = some last.TimeDNS
            ∧ r.TimeConnect = some last.TimeConnect
            ∧ r.TimeTLS = some last.TimeTLS
            ∧ r.TimeWait = some last.TimeWait
            ∧ r.TimeDownload now = some (last.TimeDownload now)
            ∧ r.TimeResponse now = some (last.TimeResponse now)
            ∧ r.TimeTotal now = some (last.TimeTotal now)
            ∧ r.TimeTotalWithRedirects now = some (first.TimeTotal now)
            ∧ r.TimeRedirects = some (last.Start.Sub first.Start)) := by
  have a0 : (TraceState.init.alloc { trace.empty with start := t0, addr := addr }).alive :=
    alive_alloc TraceState.init _ (by simp [TraceState.init])
  obtain ⟨s, hs, as⟩ := fireAll_alive rest _ a0
  have hrun : fireAll TraceState.init ((t0, Event.GetConn addr) :: rest) = some s := by
    simp only [fireAll, fire, GetConn, Option.some_bind]
    exact hs
  have hreal : ∀ a ∈ s.view, ∃ x : trace, a = some x := by
    intro a ha
    obtain ⟨k, hk⟩ := List.getElem?_of_mem ha
    exact alive_view s as k a hk
  have hlen : s.view.length = countGotConn rest := by
    have h1 := fireAll_traces_length _ _ s hrun
    have hc : countGotConn ((t0, Event.GetConn addr) :: rest) = countGotConn rest := by
      simp [countGotConn, Event.isGotConn]
    rw [hc] at h1
    simp only [TraceState.init, List.length_nil] at h1
    simp only [TraceState.view, List.length_map]
    omega
  refine ⟨s, hrun, ?_, hreal, hlen, ?_⟩
  · obtain ⟨⟨n, hn, ht⟩, _⟩ := as
    exact ⟨n, ht, by omega⟩
  · intro hpos r hr now
    have hne : s.view ≠ [] := by
      intro e
      rw [e] at hlen
      simp only [List.length_nil] at hlen
      omega
    obtain ⟨a, ha⟩ : ∃ a, s.view.head? = some a := by
      cases hv : s.view with
      | nil => exact absurd hv hne
      | cons a _ => exact ⟨a, rfl⟩
    obtain ⟨b, hb⟩ : ∃ b, s.view.getLast? = some b :=
      ⟨s.view.getLast hne, List.getLast?_eq_getLast _ hne⟩
    obtain ⟨first, ef⟩ := hreal a (List.mem_of_mem_head? ha)
    obtain ⟨last, el⟩ := hreal b (List.mem_of_mem_getLast? hb)
    have hf : r.traces.head? = some (some first) := by rw [hr, ha, ef]
    have hl : r.traces.getLast? = some (some last) := by rw [hr, hb, el]
    exact ⟨first, last, hf, hl, accessors_of_ends r first last now hf hl⟩

/-- C23 at a request answered after one redirect over a reused connection;
next to it, what the premise rules out: a timing hook that fires before any
request for a connection stores through the nil recorder, and a
connection-acquired hook that fires first appends a nil recorder, on which
`TLS` fails. -/
theorem C23_no_absent_recorder_witness :
    (∃ s, fireAll TraceState.init reuseEvents = some s
      ∧ (∀ a ∈ s.view, ∃ x : trace, a = some x)
      ∧ s.view.length = 2
      ∧ ∀ r : response, r.traces = s.view →
          ∃ tls d, r.TLS = some tls ∧ r.TimeRedirects = some d)
    ∧ fireAll TraceState.init [(atMs 0, .DNSStart)] = none
    ∧ (fireAll TraceState.init [(atMs 0, .GotConn false)]).map TraceState.view = some [none]
    ∧ response.TLS { status := 200, traces := [none], headerSize := 0, header := [],
                     bodySize := 0 } = none := by
  refine ⟨?_, by decide, by decide, by decide⟩
  obtain ⟨s, hs, _, hreal, hlen, hacc⟩ :=
    C23_no_absent_recorder "example.com:80" (atMs 0) reuseEvents.tail
  have hc : countGotConn reuseEvents.tail = 2 := by decide
  refine ⟨s, hs, hreal, by rw [hlen, hc], ?_⟩
  intro r hr
  obtain ⟨first, last, _, _, h1, _, _, _, _, _, _, _, _, h10⟩ :=
    hacc (by rw [hc]; decide) r hr (atMs 100)
  exact ⟨_, _, h1, h10⟩

/-! ## What a timing event records -/

theorem fire_timing_eq (s : TraceState) (now : Time) (e : Event) (p : Nat) (v : trace)
    (he : e.isTiming = true) (ht : s.t = some p) (hv : s.heap[p]? = some v) :
    fire s now e = some { s with heap := s.heap.set p (stamp v now e) } := by
  have hlt : p < s.heap.length := by
    rcases List.getElem?_eq_some.mp hv with ⟨h, _⟩
    exact h
  cases e with
  | GetConn addr => simp [Event.isTiming] at he
  | GotConn reused => simp [Event.isTiming] at he
  | TLSHandshakeStart =>
    have h1 := store_some s (fun t => { t with tls := true }) p v ht hv
    have h2 := store_some { s with heap := s.heap.set p { v with tls := true } }
      (fun t => { t with tlsStart := now }) p { v with tls := true } ht
      (by simp [List.getElem?_set, hlt])
    simp only [fire, TLSHandshakeStart, h1, Option.some_bind]
    rw [h2]
    simp [stamp, List.set_set]
  | DNSStart => exact store_some s _ p v ht hv
  | DNSDone => exact store_some s _ p v ht hv
  | ConnectStart => exact store_some s _ p v ht hv
  | ConnectDone => exact store_some s _ p v ht hv
  | TLSHandshakeDone => exact store_some s _ p v ht hv
  | WroteRequest => exact store_some s _ p v ht hv
  | GotFirstResponseByte => exact store_some s _ p v ht hv

theorem fire_quiet (s : TraceState) (now : Time) (e : Event) (p : Nat) (v : trace)
    (he : e.allocates = false) (ht : s.t = some p) (hv : s.heap[p]? = some v) :
    ∃ s1, fire s now e = some s1 ∧ s1.t = some p ∧ s1.heap[p]? = some (stamp v now e)
      ∧ s1.heap.length = s.heap.length := by
  have hlt : p < s.heap.length := by
    rcases List.getElem?_eq_some.mp hv with ⟨h, _⟩
    exact h
  by_cases htim : e.isTiming = true
  · refine ⟨_, fire_timing_eq s now e p v htim ht hv, ht, ?_, ?_⟩
    · simp [List.getElem?_set, hlt]
    · simp
  · cases e with
    | GetConn addr => simp [Event.allocates] at he
    | GotConn reused =>
      simp only [Event.allocates] at he
      rw [he]
      exact ⟨_, rfl, ht, hv, rfl⟩
    | _ => simp [Event.isTiming] at htim

theorem fireAll_quiet (mid : List (Time × Event)) (s : TraceState) (p : Nat) (v : trace)
    (hm : ∀ e ∈ mid, e.2.allocates = false) (ht : s.t = some p) (hv : s.heap[p]? = some v) :
    ∃ s1, fireAll s mid = some s1 ∧ s1.t = some p
      ∧ s1.heap[p]? = some (stampAll v mid) ∧ s1.heap.length = s.heap.length := by
  induction mid generalizing s v with
  | nil => exact ⟨s, rfl, ht, hv, rfl⟩
  | cons q rest ih =>
    obtain ⟨now, e⟩ := q
    obtain ⟨s2, h2, t2, v2, l2⟩ :=
      fire_quiet s now e p v (hm (now, e) (by simp)) ht hv
    obtain ⟨s3, h3, t3, v3, l3⟩ :=
      ih s2 (stamp v now e) (fun x hx => hm x (by simp [hx])) t2 v2
    refine ⟨s3, ?_, t3, ?_, by rw [l3, l2]⟩
    · simp only [fireAll, h2, Option.some_bind]
      exact h3
    · simpa [stampAll] using v3

theorem fire_allocates (s : TraceState) (now : Time) (e : Event)
    (he : e.allocates = true) :
    ∃ s1 v, fire s now e = some s1 ∧ s1.t = some s.heap.length
      ∧ s1.heap = s.heap ++ [v] ∧ v.tls = false ∧ v.start = now := by
  cases e with
  | GetConn addr => exact ⟨_, _, rfl, rfl, rfl, rfl, rfl⟩
  | GotConn reused =>
    simp only [Event.allocates] at he
    rw [he]
    exact ⟨_, _, rfl, rfl, rfl, rfl, rfl⟩
  | _ => simp [Event.allocates] at he

theorem past_store (s : TraceState) (f : trace → trace) (p : Nat) (v : trace)
    (h : s.past p v) : ∃ s1, s.store f = some s1 ∧ s1.past p v := by
  obtain ⟨⟨n, hn, ht, hp⟩, hv⟩ := h
  have hlt : n < s.heap.length := by omega
  refine ⟨_, store_some s f n s.heap[n] ht (List.getElem?_eq_getElem hlt), ?_⟩
  refine ⟨⟨n, by simp [hn], ht, hp⟩, ?_⟩
  have hne : n ≠ p := by omega
  simp only [List.getElem?_set_ne hne]
  exact hv

theorem past_alloc (s : TraceState) (w : trace) (p : Nat) (v : trace)
    (hlt : p < s.heap.length) (hv : s.heap[p]? = some v) : (s.alloc w).past p v := by
  refine ⟨⟨s.heap.length, by simp [TraceState.alloc], rfl, hlt⟩, ?_⟩
  simp only [TraceState.alloc]
  rw [List.getElem?_append_left hlt]
  exact hv

theorem fire_past (s : TraceState) (now : Time) (e : Event) (p : Nat) (v : trace)
    (h : s.past p v) : ∃ s1, fire s now e = some s1 ∧ s1.past p v := by
  have hlt : p < s.heap.length := by
    obtain ⟨⟨n, hn, _, hp⟩, _⟩ := h
    omega
  cases e with
  | GetConn addr => exact ⟨_, rfl, past_alloc s _ p v hlt h.2⟩
  | GotConn reused =>
    cases reused with
    | false => exact ⟨_, rfl, h⟩
    | true => exact ⟨_, rfl, past_alloc s _ p v hlt h.2⟩
  | TLSHandshakeStart =>
    obtain ⟨s2, h2, a2⟩ := past_store s (fun t => { t with tls := true }) p v h
    obtain ⟨s3, h3, a3⟩ := past_store s2 (fun t => { t with tlsStart := now }) p v a2
    refine ⟨s3, ?_, a3⟩
    simp only [fire, TLSHandshakeStart, h2, Option.some_bind]
    exact h3
  | DNSStart => exact past_store s _ p v h
  | DNSDone => exact past_store s _ p v h
  | ConnectStart => exact past_store s _ p v h
  | ConnectDone => exact past_store s _ p v h
  | TLSHandshakeDone => exact past_store s _ p v h
  | WroteRequest => exact past_store s _ p v h
  | GotFirstResponseByte => exact past_store s _ p v h

theorem fireAll_past (events : List (Time × Event)) (s : TraceState) (p : Nat) (v : trace)
    (h : s.past p v) : ∃ s1, fireAll s events = some s1 ∧ s1.past p v := by
  induction events generalizing s with
  | nil => exact ⟨s, rfl, h⟩
  | cons q rest ih =>
    obtain ⟨now, e⟩ := q
    obtain ⟨s2, h2, a2⟩ := fire_past s now e p v h
    obtain ⟨s3, h3, a3⟩ := ih s2 a2
    refine ⟨s3, ?_, a3⟩
    simp only [fireAll, h2, Option.some_bind]
    exact h3

theorem stampAll_tls (mid : List (Time × Event)) (v : trace) :
    (stampAll v mid).tls = true
      ↔ v.tls = true ∨ ∃ now, (now, Event.TLSHandshakeStart) ∈ mid := by
  induction mid generalizing v with
  | nil => simp [stampAll]
  | cons q rest ih =>
    obtain ⟨now, e⟩ := q
    have h := ih (stamp v now e)
    simp only [stampAll, List.foldl_cons] at h ⊢
    rw [h]
    cases e <;> simp [stamp]

theorem recorder_after_run (pre0 mid post : List (Time × Event)) (s0 sEnd : TraceState)
    (g : Time) (c : Event)
    (h0 : fireAll TraceState.init pre0 = some s0)
    (hc : c.allocates = true)
    (hmid : ∀ e ∈ mid, e.2.allocates = false)
    (hpost : ∀ q, post.head? = some q → q.2.allocates = true)
    (hrun : fireAll TraceState.init (pre0 ++ (g, c) :: (mid ++ post)) = some sEnd) :
    ∃ v0 : trace, v0.tls = false ∧ v0.start = g
      ∧ sEnd.heap[s0.heap.length]? = some (stampAll v0 mid) := by
  obtain ⟨sa, v0, ha, ta, hpa, tls0, st0⟩ := fire_allocates s0 g c hc
  have hva : sa.heap[s0.heap.length]? = some v0 := by
    rw [hpa]; simp
  obtain ⟨sb, hb, tb, vb, lb⟩ := fireAll_quiet mid sa s0.heap.length v0 hmid ta hva
  rw [fireAll_append, h0] at hrun
  simp only [Option.some_bind, fireAll, ha] at hrun
  rw [fireAll_append, hb] at hrun
  simp only [Option.some_bind] at hrun
  refine ⟨v0, tls0, st0, ?_⟩
  cases post with
  | nil =>
    simp only [fireAll, Option.some.injEq] at hrun
    rw [← hrun]; exact vb
  | cons q rest =>
    obtain ⟨now, e⟩ := q
    have he : e.allocates = true := hpost (now, e) rfl
    obtain ⟨sc, w, hfc, tc, hpc, _, _⟩ := fire_allocates sb now e he
    have hlt : s0.heap.length < sb.heap.length := by
      rcases List.getElem?_eq_some.mp vb with ⟨h, _⟩
      exact h
    have pc : sc.past s0.heap.length (stampAll v0 mid) := by
      refine ⟨⟨sb.heap.length, by rw [hpc]; simp, tc, hlt⟩, ?_⟩
      rw [hpc, List.getElem?_append_left hlt]
      exact vb
    obtain ⟨sd, hd, pd⟩ := fireAll_past rest sc _ _ pc
    simp only [fireAll, hfc, Option.some_bind] at hrun
    rw [hd] at hrun
    simp only [Option.some.injEq] at hrun
    rw [← hrun]; exact pd.2

/-- C21: a timing event fired while the captured recorder is `v` runs and
replaces `v` by the recorder the event list of the specification describes,
leaving the captured pointer, the trace sequence, the number of recorders and
every other recorder as they were. On the recorder, each of the seven plain
timing events sets its one timestamp to the event time, TLS-handshake-start
sets `tlsStart` and the TLS flag, and every other timestamp, the start and
the address keep their value. So a recorder allocated by a connection event,
on which the events `mid` fired before the next recorder was allocated, ends
with its TLS flag true exactly when TLS-handshake-start is among `mid`. -/
theorem C21_timing_frame :
    (∀ (s : TraceState) (p : Nat) (v : trace) (now : Time) (e : Event),
      e.isTiming = true → s.t = some p → s.heap[p]? = some v →
      ∃ s1, fire s now e = some s1
        ∧ s1.t = s.t ∧ s1.traces = s.traces ∧ s1.heap.length = s.heap.length
        ∧ s1.heap[p]? = some (stamp v now e)
        ∧ (∀ i : Nat, i ≠ p → s1.heap[i]? = s.heap[i]?)
        ∧ s1.view.length = s.view.length)
    ∧ (∀ (v : trace) (now : Time) (e : Event),
        (stamp v now e).addr = v.addr
        ∧ (stamp v now e).start = v.start
        ∧ (stamp v now e).dnsStart = (if e = .DNSStart then now else v.dnsStart)
        ∧ (stamp v now e).dnsEnd = (if e = .DNSDone then now else v.dnsEnd)
        ∧ (stamp v now e).tcpStart = (if e = .ConnectStart then now else v.tcpStart)
        ∧ (stamp v now e).tcpEnd = (if e = .ConnectDone then now else v.tcpEnd)
        ∧ (stamp v now e).tlsStart = (if e = .TLSHandshakeStart then now else v.tlsStart)
        ∧ (stamp v now e).tlsEnd = (if e = .TLSHandshakeDone then now else v.tlsEnd)
        ∧ (stamp v now e).waitStart = (if e = .WroteRequest then now else v.waitStart)
        ∧ (stamp v now e).waitEnd = (if e = .GotFirstResponseByte then now else v.waitEnd)
        ∧ (stamp v now e).tls = (if e = .TLSHandshakeStart then true else v.tls))
    ∧ (∀ (pre0 mid post : List (Time × Event)) (s0 sEnd : TraceState) (g : Time) (c : Event),
        fireAll TraceState.init pre0 = some s0 →
        c.allocates = true →
        (∀ e ∈ mid, e.2.allocates = false) →
        (∀ q, post.head? = some q → q.2.allocates = true) →
        fireAll TraceState.init (pre0 ++ (g, c) :: (mid ++ post)) = some sEnd →
        ∃ v : trace, sEnd.heap[s0.heap.length]? = some v ∧ v.start = g
          ∧ (v.tls = true ↔ ∃ now, (now, Event.TLSHandshakeStart) ∈ mid)) := by
  refine ⟨?_, ?_, ?_⟩
  · intro s p v now e he ht hv
    have hlt : p < s.heap.length := by
      rcases List.getElem?_eq_some.mp hv with ⟨h, _⟩
      exact h
    refine ⟨_, fire_timing_eq s now e p v he ht hv, rfl, rfl, by simp, ?_, ?_, ?_⟩
    · simp [List.getElem?_set, hlt]
    · intro i hi
      simp only
      exact List.getElem?_set_ne (Ne.symm hi)
    · simp [TraceState.view]
  · intro v now e
    cases e <;> simp [stamp]
  · intro pre0 mid post s0 sEnd g c h0 hc hmid hpost hrun
    obtain ⟨v0, tls0, st0, hv⟩ :=
      recorder_after_run pre0 mid post s0 sEnd g c h0 hc hmid hpost hrun
    refine ⟨_, hv, ?_, ?_⟩
    · rw [(stampAll_start_addr mid v0).1, st0]
    · rw [stampAll_tls, tls0]
      simp

/-- C21 at two hops, an HTTPS one followed by a plain one: the TLS
handshake start stamps `tlsStart` and sets the flag on the recorder of the
first hop and nothing else, and at the end of the run the recorder of the
first hop has its TLS flag set and that of the second hop has not. -/
theorem C21_timing_frame_witness :
    (stamp (plainHop 0) (atMs 5) .TLSHandshakeStart).tlsStart = atMs 5
    ∧ (stamp (plainHop 0) (atMs 5) .TLSHandshakeStart).tls = true
    ∧ (stamp (plainHop 0) (atMs 5) .TLSHandshakeStart).waitEnd = (plainHop 0).waitEnd
    ∧ ∃ sEnd, fireAll TraceState.init tlsThenPlainEvents = some sEnd
        ∧ (∃ v : trace, sEnd.heap[0]? = some v ∧ v.start = atMs 0 ∧ v.tls = true)
        ∧ (∃ v : trace, sEnd.heap[1]? = some v ∧ v.start = atMs 41 ∧ v.tls = false) := by
  have hs : (stamp (plainHop 0) (atMs 5) .TLSHandshakeStart).tlsStart
        = (if Event.TLSHandshakeStart = .TLSHandshakeStart then atMs 5
            else (plainHop 0).tlsStart)
      ∧ (stamp (plainHop 0) (atMs 5) .TLSHandshakeStart).waitEnd
        = (if Event.TLSHandshakeStart = .GotFirstResponseByte then atMs 5
            else (plainHop 0).waitEnd)
      ∧ (stamp (plainHop 0) (atMs 5) .TLSHandshakeStart).tls
        = (if Event.TLSHandshakeStart = .TLSHandshakeStart then true
            else (plainHop 0).tls) :=
    ⟨(C21_timing_frame.2.1 (plainHop 0) (atMs 5) .TLSHandshakeStart).2.2.2.2.2.2.1,
      (C21_timing_frame.2.1 (plainHop 0) (atMs 5) .TLSHandshakeStart).2.2.2.2.2.2.2.2.2.1,
      (C21_timing_frame.2.1 (plainHop 0) (atMs 5) .TLSHandshakeStart).2.2.2.2.2.2.2.2.2.2⟩
  have hrun : ∃ sEnd, fireAll TraceState.init tlsThenPlainEvents = some sEnd := ⟨_, rfl⟩
  obtain ⟨sEnd, hEnd⟩ := hrun
  refine ⟨by rw [hs.1]; rfl, by rw [hs.2.2]; rfl, by rw [hs.2.1]; rfl, sEnd, hEnd, ?_, ?_⟩
  · obtain ⟨v, hv, hst, htls⟩ := C21_timing_frame.2.2 []
      ((tlsThenPlainEvents.drop 1).take 7) (tlsThenPlainEvents.drop 8)
      TraceState.init sEnd (atMs 0) (.GetConn "example.com:443")
      rfl rfl (by decide) (by decide) hEnd
    exact ⟨v, hv, hst, htls.mpr ⟨atMs 5, by decide⟩⟩
  · obtain ⟨s0, h0⟩ : ∃ s0, fireAll TraceState.init (tlsThenPlainEvents.take 8) = some s0 :=
      ⟨_, rfl⟩
    have hlen : s0.heap.length = 1 := by
      have e : (fireAll TraceState.init (tlsThenPlainEvents.take 8)).map
          (fun s => s.heap.length) = some 1 := by decide
      rw [h0] at e
      simpa using e
    obtain ⟨v, hv, hst, htls⟩ := C21_timing_frame.2.2 (tlsThenPlainEvents.take 8)
      (tlsThenPlainEvents.drop 9) [] s0 sEnd (atMs 41) (.GetConn "example.org:80")
      h0 rfl (by decide) (by intro q hq; cases hq) (by simpa using hEnd)
    rw [hlen] at hv
    refine ⟨v, hv, hst, ?_⟩
    cases hb : v.tls with
    | false => rfl
    | true =>
      obtain ⟨now, hmem⟩ := htls.mp hb
      have hin : Event.TLSHandshakeStart ∈ (tlsThenPlainEvents.drop 9).map Prod.snd :=
        List.mem_map_of_mem Prod.snd hmem
      exact absurd hin (by decide)

end Httpstat
